import Mathlib

/-!
Verification development for the AddOn Architect core: the domain model
(`src/lib/types.ts`), the mutation store (`src/lib/store.ts`) and the pure
exporters (`src/lib/exporters.ts`), shallowly embedded in Lean.

Identifiers: the source uses `crypto.randomUUID()`, an identifier generator
whose outputs are opaque strings assumed globally unique across the process
lifetime.  We embed identifiers as natural numbers and the generator as a
counter threaded through every creating operation: a `Store` carries the
model (`AddonState`) together with the counter `gen`, and freshness of the
counter with respect to the ids already in the model plays the role of the
uniqueness assumption on UUIDs.
-/

namespace AddonArchitect

/-- `ParameterKind` from `src/lib/types.ts`: the fixed enum of parameter kinds. -/
inductive ParameterKind where
  | bool | int | float | string | vector | rotator | transform
  | object | name | array | map
deriving DecidableEq, Repr

/-- The string each `ParameterKind` literal denotes in the source. -/
def ParameterKind.toStr : ParameterKind → String
  | .bool => "bool"
  | .int => "int"
  | .float => "float"
  | .string => "string"
  | .vector => "vector"
  | .rotator => "rotator"
  | .transform => "transform"
  | .object => "object"
  | .name => "name"
  | .array => "array"
  | .map => "map"

/-- `BlueprintParameter` from `src/lib/types.ts`.  Optional fields are `Option`s. -/
structure BlueprintParameter where
  id : Nat
  name : String
  kind : ParameterKind
  defaultValue : Option String := none
  description : Option String := none
  isArray : Option Bool := none
deriving DecidableEq, Repr

/-- `BlueprintNode` from `src/lib/types.ts`. -/
structure BlueprintNode where
  id : Nat
  title : String
  category : String
  description : String
  inputs : List BlueprintParameter
  outputs : List BlueprintParameter
  body : String
deriving DecidableEq, Repr

/-- `CommandBinding` from `src/lib/types.ts`. -/
structure CommandBinding where
  id : Nat
  name : String
  context : String
  hotkey : String
  description : String
  script : String
deriving DecidableEq, Repr

/-- The `target` union type of `AddonModule`. -/
inductive ModuleTarget where
  | Editor | Runtime | EditorAndRuntime
deriving DecidableEq, Repr

/-- The string each `ModuleTarget` literal denotes in the source. -/
def ModuleTarget.toStr : ModuleTarget → String
  | .Editor => "Editor"
  | .Runtime => "Runtime"
  | .EditorAndRuntime => "EditorAndRuntime"

/-- `AddonModule` from `src/lib/types.ts`. -/
structure AddonModule where
  id : Nat
  name : String
  target : ModuleTarget
  description : String
  dependencies : List String
  nodes : List BlueprintNode
  commands : List CommandBinding
deriving DecidableEq, Repr

/-- The `pluginType` union type of `AddonMeta`. -/
inductive PluginType where
  | Code | Blueprint | Hybrid
deriving DecidableEq, Repr

/-- `AddonMeta` from `src/lib/types.ts`. -/
structure AddonMeta where
  title : String
  identifier : String
  author : String
  version : String
  minEngineVersion : String
  pluginType : PluginType
  description : String
deriving DecidableEq, Repr

/-- `AddonState` from `src/lib/types.ts`: the whole model. -/
structure AddonState where
  meta : AddonMeta
  modules : List AddonModule
  selectedModuleId : Option Nat
  selectedNodeId : Option Nat
deriving DecidableEq, Repr

/-- The store's full state: the model plus the identifier-generator counter
(standing for `crypto.randomUUID()`'s global supply). -/
structure Store where
  st : AddonState
  gen : Nat
deriving DecidableEq, Repr

/-! ## Entity constructors (`createParameter`, `createNode`, `createModule`)

Each returns the created entity together with the advanced generator counter,
following the order in which `crypto.randomUUID()` is called in the source. -/

/-- `createParameter` from `src/lib/store.ts`. -/
def createParameter (name : String) (g : Nat) : BlueprintParameter × Nat :=
  ({ id := g, name := name, kind := .string }, g + 1)

/-- `createNode` from `src/lib/store.ts`. -/
def createNode (g : Nat) : BlueprintNode × Nat :=
  let (ctx, g1) := createParameter "Context" (g + 1)
  let (res, g2) := createParameter "Result" g1
  ({ id := g
   , title := "Execute Task"
   , description := "Runs a custom task in the editor or runtime."
   , category := "Utilities"
   , inputs := [ctx]
   , outputs := [res]
   , body := "// Describe the node behaviour here. This will be exported as a comment in the generated C++ scaffold.\nreturn Result;" }, g2)

/-- `createModule` from `src/lib/store.ts`. -/
def createModule (g : Nat) : AddonModule × Nat :=
  let (node, g1) := createNode (g + 1)
  ({ id := g
   , name := "CoreModule"
   , target := .EditorAndRuntime
   , description := "Primary module that ships with the add-on."
   , dependencies := ["Core", "Engine", "UnrealEd"]
   , nodes := [node]
   , commands := [
      { id := g1
      , name := "OpenPalette"
      , context := "LevelEditor"
      , hotkey := "Ctrl+Alt+P"
      , description := "Opens the add-on palette."
      , script := "UEditorUtilitySubsystem* UtilitySubsystem = GEditor->GetEditorSubsystem<UEditorUtilitySubsystem>();\nUtilitySubsystem->ExecuteUtility(FName(\"BP_OpenPaletteUtility\"));" }]
   }, g1 + 1)

/-- `defaultState` from `src/lib/store.ts`, built once at program start
from generator counter 0, paired with the counter left after building it. -/
def defaultBuild : AddonState × Nat :=
  let (m, g) := createModule 0
  ({ meta :=
      { title := "AddOn Architect"
      , identifier := "AddonArchitect"
      , author := "StudioX"
      , version := "1.0.0"
      , minEngineVersion := "5.3"
      , pluginType := .Hybrid
      , description := "Design a hybrid Blueprint/C++ add-on with modular nodes, editor commands, and export utilities." }
   , modules := [m]
   , selectedModuleId := none
   , selectedNodeId := none }, g)

/-- The module-level constant `defaultState`. -/
def defaultState : AddonState := defaultBuild.1

/-- The store at program start: `defaultState` plus the generator counter
as it stands after the one-time construction of the defaults. -/
def defaultStore : Store := { st := defaultState, gen := defaultBuild.2 }

/-! ## Patches

The store's update operations take TypeScript `Partial<...>` patches and merge
them shallowly (`{ ...entity, ...patch }`).  A patch is embedded as a record of
`Option` fields; merging takes the patch's field when present. -/

/-- `Partial<AddonMeta>`; `updateMeta(key, value)` sets a single field, which is
the special case of a patch with exactly one field present. -/
structure MetaPatch where
  title : Option String := none
  identifier : Option String := none
  author : Option String := none
  version : Option String := none
  minEngineVersion : Option String := none
  pluginType : Option PluginType := none
  description : Option String := none
deriving DecidableEq, Repr

/-- Shallow merge `{ ...meta, ...patch }`. -/
def applyMetaPatch (p : MetaPatch) (m : AddonMeta) : AddonMeta :=
  { title := p.title.getD m.title
  , identifier := p.identifier.getD m.identifier
  , author := p.author.getD m.author
  , version := p.version.getD m.version
  , minEngineVersion := p.minEngineVersion.getD m.minEngineVersion
  , pluginType := p.pluginType.getD m.pluginType
  , description := p.description.getD m.description }

/-- `Partial<AddonModule>`. -/
structure ModulePatch where
  id : Option Nat := none
  name : Option String := none
  target : Option ModuleTarget := none
  description : Option String := none
  dependencies : Option (List String) := none
  nodes : Option (List BlueprintNode) := none
  commands : Option (List CommandBinding) := none
deriving DecidableEq, Repr

/-- Shallow merge `{ ...mod, ...patch }`. -/
def applyModulePatch (p : ModulePatch) (m : AddonModule) : AddonModule :=
  { id := p.id.getD m.id
  , name := p.name.getD m.name
  , target := p.target.getD m.target
  , description := p.description.getD m.description
  , dependencies := p.dependencies.getD m.dependencies
  , nodes := p.nodes.getD m.nodes
  , commands := p.commands.getD m.commands }

/-- `Partial<BlueprintNode>`. -/
structure NodePatch where
  id : Option Nat := none
  title : Option String := none
  category : Option String := none
  description : Option String := none
  inputs : Option (List BlueprintParameter) := none
  outputs : Option (List BlueprintParameter) := none
  body : Option String := none
deriving DecidableEq, Repr

/-- Shallow merge `{ ...node, ...patch }`. -/
def applyNodePatch (p : NodePatch) (n : BlueprintNode) : BlueprintNode :=
  { id := p.id.getD n.id
  , title := p.title.getD n.title
  , category := p.category.getD n.category
  , description := p.description.getD n.description
  , inputs := p.inputs.getD n.inputs
  , outputs := p.outputs.getD n.outputs
  , body := p.body.getD n.body }

/-- `Partial<BlueprintParameter>`. -/
structure ParamPatch where
  id : Option Nat := none
  name : Option String := none
  kind : Option ParameterKind := none
  defaultValue : Option (Option String) := none
  description : Option (Option String) := none
  isArray : Option (Option Bool) := none
deriving DecidableEq, Repr

/-- Shallow merge `{ ...param, ...patch }`. -/
def applyParamPatch (p : ParamPatch) (q : BlueprintParameter) : BlueprintParameter :=
  { id := p.id.getD q.id
  , name := p.name.getD q.name
  , kind := p.kind.getD q.kind
  , defaultValue := p.defaultValue.getD q.defaultValue
  , description := p.description.getD q.description
  , isArray := p.isArray.getD q.isArray }

/-- `Partial<CommandBinding>`. -/
structure CommandPatch where
  id : Option Nat := none
  name : Option String := none
  context : Option String := none
  hotkey : Option String := none
  description : Option String := none
  script : Option String := none
deriving DecidableEq, Repr

/-- Shallow merge `{ ...command, ...patch }`. -/
def applyCommandPatch (p : CommandPatch) (c : CommandBinding) : CommandBinding :=
  { id := p.id.getD c.id
  , name := p.name.getD c.name
  , context := p.context.getD c.context
  , hotkey := p.hotkey.getD c.hotkey
  , description := p.description.getD c.description
  , script := p.script.getD c.script }

/-- The `"inputs" | "outputs"` placement key of the parameter operations. -/
inductive Placement where
  | inputs | outputs
deriving DecidableEq, Repr

/-- `node[placement]` in the source. -/
def BlueprintNode.placementList (n : BlueprintNode) : Placement → List BlueprintParameter
  | .inputs => n.inputs
  | .outputs => n.outputs

/-- `{ ...node, [placement]: ps }` in the source. -/
def BlueprintNode.withPlacement (n : BlueprintNode) : Placement → List BlueprintParameter → BlueprintNode
  | .inputs, ps => { n with inputs := ps }
  | .outputs, ps => { n with outputs := ps }

/-- `placement === "inputs" ? "InputParam" : "OutputParam"` in `addParameter`. -/
def Placement.defaultName : Placement → String
  | .inputs => "InputParam"
  | .outputs => "OutputParam"

/-! ## Mutation operations (`src/lib/store.ts`)

Each operation below embeds one store action.  `mapGen` embeds a
JavaScript `Array.prototype.map` whose callback calls the id generator:
the counter threads left-to-right through the mapped elements, matching
the evaluation order of `map`. -/

/-- `map` with the generator counter threaded through the callback. -/
def mapGen {α : Type} (f : α → Nat → α × Nat) : List α → Nat → List α × Nat
  | [], g => ([], g)
  | x :: xs, g =>
    let (y, g1) := f x g
    let (ys, g2) := mapGen f xs g1
    (y :: ys, g2)

/-- `updateMeta` from `src/lib/store.ts` (a one-field patch generalised to a patch). -/
def updateMeta (p : MetaPatch) (s : Store) : Store :=
  { s with st := { s.st with meta := applyMetaPatch p s.st.meta } }

/-- `selectModule` from `src/lib/store.ts`. -/
def selectModule (i : Option Nat) (s : Store) : Store :=
  { s with st := { s.st with
      selectedModuleId := i
    , selectedNodeId :=
        match i with
        | none => none
        | some mid =>
          ((s.st.modules.find? (fun m => m.id == mid)).bind (fun m => m.nodes.head?)).map
            (fun n => n.id) } }

/-- `selectNode` from `src/lib/store.ts`: sets `selectedNodeId` unconditionally. -/
def selectNode (i : Option Nat) (s : Store) : Store :=
  { s with st := { s.st with selectedNodeId := i } }

/-- `addModule` from `src/lib/store.ts`. -/
def addModule (s : Store) : Store :=
  let (newModule, g) := createModule s.gen
  { st := { s.st with
      modules := s.st.modules ++ [newModule]
    , selectedModuleId := some newModule.id
    , selectedNodeId := (newModule.nodes.head?).map (fun n => n.id) }
  , gen := g }

/-- The `{ ...param, id: crypto.randomUUID() }` copy inside `cloneModule`. -/
def cloneParam (p : BlueprintParameter) (g : Nat) : BlueprintParameter × Nat :=
  ({ p with id := g }, g + 1)

/-- The node copy inside `cloneModule`: fresh node id, then fresh ids for
inputs and outputs in order. -/
def cloneNode (n : BlueprintNode) (g : Nat) : BlueprintNode × Nat :=
  let (ins, g1) := mapGen cloneParam n.inputs (g + 1)
  let (outs, g2) := mapGen cloneParam n.outputs g1
  ({ n with id := g, inputs := ins, outputs := outs }, g2)

/-- The `{ ...command, id: crypto.randomUUID() }` copy inside `cloneModule`. -/
def cloneCommand (c : CommandBinding) (g : Nat) : CommandBinding × Nat :=
  ({ c with id := g }, g + 1)

/-- The `cloned` module literal inside `cloneModule`: spread of the existing
module with fresh id, suffixed name, and deep-copied nodes and commands. -/
def cloneModuleFn (m : AddonModule) (g : Nat) : AddonModule × Nat :=
  let (ns, g1) := mapGen cloneNode m.nodes (g + 1)
  let (cs, g2) := mapGen cloneCommand m.commands g1
  ({ m with id := g, name := m.name ++ "Copy", nodes := ns, commands := cs }, g2)

/-- `cloneModule` from `src/lib/store.ts`: no-op when the id is missing,
otherwise appends the clone and selects it. -/
def cloneModule (i : Nat) (s : Store) : Store :=
  match s.st.modules.find? (fun m => m.id == i) with
  | none => s
  | some existing =>
    let (cloned, g) := cloneModuleFn existing s.gen
    { st := { s.st with
        modules := s.st.modules ++ [cloned]
      , selectedModuleId := some cloned.id
      , selectedNodeId := (cloned.nodes.head?).map (fun n => n.id) }
    , gen := g }

/-- `updateModule` from `src/lib/store.ts`. -/
def updateModule (i : Nat) (p : ModulePatch) (s : Store) : Store :=
  { s with st := { s.st with
      modules := s.st.modules.map (fun m => if m.id == i then applyModulePatch p m else m) } }

/-- `removeModule` from `src/lib/store.ts`.  `nextSelected && modules.length`
is truthy exactly when `nextSelected` is non-null (ids are non-empty UUID
strings, and a non-null last id implies a non-empty list). -/
def removeModule (i : Nat) (s : Store) : Store :=
  let modules := s.st.modules.filter (fun m => m.id != i)
  let nextSelected : Option Nat := (modules.getLast?).map (fun m => m.id)
  { s with st := { s.st with
      modules := modules
    , selectedModuleId := nextSelected
    , selectedNodeId :=
        match nextSelected with
        | none => none
        | some nid =>
          ((modules.find? (fun m => m.id == nid)).bind (fun m => m.nodes.head?)).map
            (fun n => n.id) } }

/-- `addNode` from `src/lib/store.ts`: the node is created once, before the
map, and selection always moves to `(moduleId, node.id)`. -/
def addNode (moduleId : Nat) (s : Store) : Store :=
  let (node, g) := createNode s.gen
  { st := { s.st with
      modules := s.st.modules.map (fun m =>
        if m.id == moduleId then { m with nodes := m.nodes ++ [node] } else m)
    , selectedModuleId := some moduleId
    , selectedNodeId := some node.id }
  , gen := g }

/-- `updateNode` from `src/lib/store.ts`. -/
def updateNode (moduleId nodeId : Nat) (p : NodePatch) (s : Store) : Store :=
  { s with st := { s.st with
      modules := s.st.modules.map (fun m =>
        if m.id == moduleId then
          { m with nodes := m.nodes.map (fun n => if n.id == nodeId then applyNodePatch p n else n) }
        else m) } }

/-- `removeNode` from `src/lib/store.ts`: selection moves to `moduleId` and
the first remaining node of the module found in the new list. -/
def removeNode (moduleId nodeId : Nat) (s : Store) : Store :=
  let modules := s.st.modules.map (fun m =>
    if m.id == moduleId then { m with nodes := m.nodes.filter (fun n => n.id != nodeId) } else m)
  let activeModule := modules.find? (fun m => m.id == moduleId)
  { s with st := { s.st with
      modules := modules
    , selectedModuleId := some moduleId
    , selectedNodeId := (activeModule.bind (fun m => m.nodes.head?)).map (fun n => n.id) } }

/-- The node-level callback of `addParameter`: a matching node gets a fresh
default parameter appended to the chosen placement list. -/
def addParamToNode (pl : Placement) (nodeId : Nat) (n : BlueprintNode) (g : Nat) :
    BlueprintNode × Nat :=
  if n.id == nodeId then
    let (p, g2) := createParameter pl.defaultName g
    (n.withPlacement pl (n.placementList pl ++ [p]), g2)
  else (n, g)

/-- The module-level callback of `addParameter`. -/
def addParamToModule (pl : Placement) (moduleId nodeId : Nat) (m : AddonModule) (g : Nat) :
    AddonModule × Nat :=
  if m.id == moduleId then
    let (ns, g1) := mapGen (addParamToNode pl nodeId) m.nodes g
    ({ m with nodes := ns }, g1)
  else (m, g)

/-- `addParameter` from `src/lib/store.ts`: `createParameter` is called inside
the nested map, once per matching node, hence the threaded counter. -/
def addParameter (moduleId nodeId : Nat) (pl : Placement) (s : Store) : Store :=
  let (modules, g) :=
    mapGen (addParamToModule pl moduleId nodeId) s.st.modules s.gen
  { st := { s.st with modules := modules }, gen := g }

/-- `updateParameter` from `src/lib/store.ts`. -/
def updateParameter (moduleId nodeId : Nat) (pl : Placement) (paramId : Nat)
    (p : ParamPatch) (s : Store) : Store :=
  { s with st := { s.st with
      modules := s.st.modules.map (fun m =>
        if m.id == moduleId then
          { m with nodes := m.nodes.map (fun n =>
              if n.id == nodeId then
                n.withPlacement pl ((n.placementList pl).map (fun q =>
                  if q.id == paramId then applyParamPatch p q else q))
              else n) }
        else m) } }

/-- `removeParameter` from `src/lib/store.ts`. -/
def removeParameter (moduleId nodeId : Nat) (pl : Placement) (paramId : Nat)
    (s : Store) : Store :=
  { s with st := { s.st with
      modules := s.st.modules.map (fun m =>
        if m.id == moduleId then
          { m with nodes := m.nodes.map (fun n =>
              if n.id == nodeId then
                n.withPlacement pl ((n.placementList pl).filter (fun q => q.id != paramId))
              else n) }
        else m) } }

/-- The command literal of `addCommand`, with its fresh id. -/
def newCommandBinding (g : Nat) : CommandBinding :=
  { id := g
  , name := "NewCommand"
  , context := "LevelEditor"
  , hotkey := "Ctrl+Shift+N"
  , description := "Executes a custom command."
  , script := "// Script body" }

/-- The module-level callback of `addCommand`. -/
def addCommandToModule (moduleId : Nat) (m : AddonModule) (g : Nat) : AddonModule × Nat :=
  if m.id == moduleId then ({ m with commands := m.commands ++ [newCommandBinding g] }, g + 1)
  else (m, g)

/-- `addCommand` from `src/lib/store.ts`: the command literal (with its fresh
id) is built inside the map, once per matching module. -/
def addCommand (moduleId : Nat) (s : Store) : Store :=
  let (modules, g) := mapGen (addCommandToModule moduleId) s.st.modules s.gen
  { st := { s.st with modules := modules }, gen := g }

/-- `updateCommand` from `src/lib/store.ts`. -/
def updateCommand (moduleId commandId : Nat) (p : CommandPatch) (s : Store) : Store :=
  { s with st := { s.st with
      modules := s.st.modules.map (fun m =>
        if m.id == moduleId then
          { m with commands := m.commands.map (fun c =>
              if c.id == commandId then applyCommandPatch p c else c) }
        else m) } }

/-- `removeCommand` from `src/lib/store.ts`. -/
def removeCommand (moduleId commandId : Nat) (s : Store) : Store :=
  { s with st := { s.st with
      modules := s.st.modules.map (fun m =>
        if m.id == moduleId then
          { m with commands := m.commands.filter (fun c => c.id != commandId) }
        else m) } }

/-- `reset` from `src/lib/store.ts`: `set({ ...defaultState })` restores the
module-level constant; the generator counter is untouched. -/
def reset (s : Store) : Store :=
  { st := defaultState, gen := s.gen }

/-! ## Ids, invariants and reachability -/

/-- All ids nested in a node: its own, then its input and output parameter ids. -/
def nodeIdsAll (n : BlueprintNode) : List Nat :=
  n.id :: (n.inputs.map (fun p => p.id) ++ n.outputs.map (fun p => p.id))

/-- All ids nested in a module: its own, its nodes' nested ids, its command ids. -/
def moduleIdsAll (m : AddonModule) : List Nat :=
  m.id :: ((m.nodes.map nodeIdsAll).flatten ++ m.commands.map (fun c => c.id))

/-- Every id occurring anywhere in the model. -/
def stateIds (st : AddonState) : List Nat :=
  (st.modules.map moduleIdsAll).flatten

/-- The generator counter is ahead of every id in the model (the embedding of
the assumption that `crypto.randomUUID()` never repeats an existing id). -/
def Fresh (s : Store) : Prop :=
  ∀ a ∈ stateIds s.st, a < s.gen

/-- Parameter ids are pairwise distinct within the node's inputs list and
within its outputs list. -/
def UniqueNode (n : BlueprintNode) : Prop :=
  (n.inputs.map (fun p => p.id)).Nodup ∧ (n.outputs.map (fun p => p.id)).Nodup

/-- Node ids and command ids are pairwise distinct within the module, and each
node satisfies `UniqueNode`. -/
def UniqueModule (m : AddonModule) : Prop :=
  (m.nodes.map (fun n => n.id)).Nodup ∧ (m.commands.map (fun c => c.id)).Nodup ∧
    ∀ n ∈ m.nodes, UniqueNode n

/-- Module ids are pairwise distinct in the model and every module satisfies
`UniqueModule`: the spec's "every id is unique within its containing
collection". -/
def UniqueState (st : AddonState) : Prop :=
  (st.modules.map (fun m => m.id)).Nodup ∧ ∀ m ∈ st.modules, UniqueModule m

/-- The spec's selection invariant: `selectedNodeId` is null, or it is the id
of a node of a module of the model whose id is `selectedModuleId`. -/
def SelOk (st : AddonState) : Prop :=
  match st.selectedNodeId with
  | none => True
  | some nid =>
    ∃ m ∈ st.modules, st.selectedModuleId = some m.id ∧ ∃ n ∈ m.nodes, n.id = nid

instance (st : AddonState) : Decidable (SelOk st) :=
  match h : st.selectedNodeId with
  | none => .isTrue (by simp [SelOk, h])
  | some nid =>
    decidable_of_iff
      (∃ m ∈ st.modules, st.selectedModuleId = some m.id ∧ ∃ n ∈ m.nodes, n.id = nid)
      (by simp [SelOk, h])

instance (n : BlueprintNode) : Decidable (UniqueNode n) :=
  decidable_of_iff
    ((n.inputs.map (fun p => p.id)).Nodup ∧ (n.outputs.map (fun p => p.id)).Nodup)
    (by unfold UniqueNode; exact Iff.rfl)

instance (m : AddonModule) : Decidable (UniqueModule m) :=
  decidable_of_iff
    ((m.nodes.map (fun n => n.id)).Nodup ∧ (m.commands.map (fun c => c.id)).Nodup ∧
      ∀ n ∈ m.nodes, UniqueNode n)
    (by unfold UniqueModule; exact Iff.rfl)

instance (st : AddonState) : Decidable (UniqueState st) :=
  decidable_of_iff
    ((st.modules.map (fun m => m.id)).Nodup ∧ ∀ m ∈ st.modules, UniqueModule m)
    (by unfold UniqueState; exact Iff.rfl)

/-- One mutation operation of the Store, with its arguments. -/
inductive Op where
  | updateMeta (p : MetaPatch)
  | selectModule (i : Option Nat)
  | selectNode (i : Option Nat)
  | addModule
  | cloneModule (i : Nat)
  | updateModule (i : Nat) (p : ModulePatch)
  | removeModule (i : Nat)
  | addNode (moduleId : Nat)
  | updateNode (moduleId nodeId : Nat) (p : NodePatch)
  | removeNode (moduleId nodeId : Nat)
  | addParameter (moduleId nodeId : Nat) (pl : Placement)
  | updateParameter (moduleId nodeId : Nat) (pl : Placement) (paramId : Nat) (p : ParamPatch)
  | removeParameter (moduleId nodeId : Nat) (pl : Placement) (paramId : Nat)
  | addCommand (moduleId : Nat)
  | updateCommand (moduleId commandId : Nat) (p : CommandPatch)
  | removeCommand (moduleId commandId : Nat)
  | reset
deriving DecidableEq, Repr

/-- Apply one operation to the store. -/
def applyOp : Op → Store → Store
  | .updateMeta p, s => updateMeta p s
  | .selectModule i, s => selectModule i s
  | .selectNode i, s => selectNode i s
  | .addModule, s => addModule s
  | .cloneModule i, s => cloneModule i s
  | .updateModule i p, s => updateModule i p s
  | .removeModule i, s => removeModule i s
  | .addNode i, s => addNode i s
  | .updateNode i n p, s => updateNode i n p s
  | .removeNode i n, s => removeNode i n s
  | .addParameter i n pl, s => addParameter i n pl s
  | .updateParameter i n pl q p, s => updateParameter i n pl q p s
  | .removeParameter i n pl q, s => removeParameter i n pl q s
  | .addCommand i, s => addCommand i s
  | .updateCommand i c p, s => updateCommand i c p s
  | .removeCommand i c, s => removeCommand i c s
  | .reset, s => reset s

/-- Stores reachable from the startup store by any sequence of operations. -/
inductive Reach : Store → Prop where
  | init : Reach defaultStore
  | step (s : Store) (op : Op) : Reach s → Reach (applyOp op s)

/-- A module patch that does not touch the id-bearing fields. -/
def ModulePatch.KeepsIds (p : ModulePatch) : Prop :=
  p.id = none ∧ p.nodes = none ∧ p.commands = none

/-- A node patch that does not touch the id-bearing fields. -/
def NodePatch.KeepsIds (p : NodePatch) : Prop :=
  p.id = none ∧ p.inputs = none ∧ p.outputs = none

/-- An operation whose patch argument (if any) does not touch id-bearing
fields. -/
def Op.IdSafe : Op → Prop
  | .updateModule _ p => p.KeepsIds
  | .updateNode _ _ p => p.KeepsIds
  | .updateParameter _ _ _ _ p => p.id = none
  | .updateCommand _ _ p => p.id = none
  | _ => True

/-- Stores reachable using only operations whose patches keep ids intact. -/
inductive ReachIdSafe : Store → Prop where
  | init : ReachIdSafe defaultStore
  | step (s : Store) (op : Op) : ReachIdSafe s → op.IdSafe → ReachIdSafe (applyOp op s)

/-- An operation that respects the selection discipline at state `s`:
`selectNode` only with null or a node of the currently selected module,
`addNode` only with an existing module id, and update patches keeping the
id-bearing fields intact. -/
def Op.SelSafe (s : Store) : Op → Prop
  | .selectNode none => True
  | .selectNode (some nid) =>
    ∃ m ∈ s.st.modules, s.st.selectedModuleId = some m.id ∧ ∃ n ∈ m.nodes, n.id = nid
  | .addNode moduleId => ∃ m ∈ s.st.modules, m.id = moduleId
  | .updateModule _ p => p.id = none ∧ p.nodes = none
  | .updateNode _ _ p => p.id = none
  | _ => True

/-- Stores reachable using only selection-disciplined operations. -/
inductive ReachSelSafe : Store → Prop where
  | init : ReachSelSafe defaultStore
  | step (s : Store) (op : Op) : ReachSelSafe s → op.SelSafe s → ReachSelSafe (applyOp op s)

/-! ## Exporters (`src/lib/exporters.ts`)

`createUPluginDescriptor` calls `JSON.stringify(value, null, 2)`.  We embed a
small JSON value type and the ECMA-262 serialisation with a two-space gap. -/

/-- A JSON value (the fragment the descriptor uses). -/
inductive Json where
  | str (s : String)
  | num (n : Int)
  | arr (xs : List Json)
  | obj (fields : List (String × Json))

/-- Lower-case hexadecimal digit, as emitted by `JSON.stringify` in
`\u00xx` escapes. -/
def hexDigit (n : Nat) : String :=
  if n = 0 then "0" else if n = 1 then "1" else if n = 2 then "2"
  else if n = 3 then "3" else if n = 4 then "4" else if n = 5 then "5"
  else if n = 6 then "6" else if n = 7 then "7" else if n = 8 then "8"
  else if n = 9 then "9" else if n = 10 then "a" else if n = 11 then "b"
  else if n = 12 then "c" else if n = 13 then "d" else if n = 14 then "e"
  else "f"

/-- The escape `JSON.stringify` applies to one character inside a string. -/
def escapeChar (c : Char) : String :=
  if c = '"' then "\\\""
  else if c = '\\' then "\\\\"
  else if c.toNat = 8 then "\\b"
  else if c = '\t' then "\\t"
  else if c = '\n' then "\\n"
  else if c.toNat = 12 then "\\f"
  else if c = '\r' then "\\r"
  else if c.toNat < 32 then "\\u00" ++ hexDigit (c.toNat / 16) ++ hexDigit (c.toNat % 16)
  else String.mk [c]

/-- `JSON.stringify`'s quoted-string form. -/
def jsonQuote (s : String) : String :=
  "\"" ++ String.join (s.data.map escapeChar) ++ "\""

mutual

/-- `JSON.stringify(v, null, 2)` at current indentation `pre`. -/
def renderJson (pre : String) : Json → String
  | .str s => jsonQuote s
  | .num n => toString n
  | .arr [] => "[]"
  | .arr (x :: xs) =>
    "[\n" ++ String.intercalate ",\n" (renderItems pre (x :: xs)) ++ "\n" ++ pre ++ "]"
  | .obj [] => "\x7b\x7d"
  | .obj (f :: fs) =>
    "\x7b\n" ++ String.intercalate ",\n" (renderFields pre (f :: fs)) ++ "\n" ++ pre ++ "\x7d"

/-- The serialised members of an array, each on its own indented line. -/
def renderItems (pre : String) : List Json → List String
  | [] => []
  | x :: xs => (pre ++ "  " ++ renderJson (pre ++ "  ") x) :: renderItems pre xs

/-- The serialised members of an object, each on its own indented line. -/
def renderFields (pre : String) : List (String × Json) → List String
  | [] => []
  | (k, v) :: fs =>
    (pre ++ "  " ++ jsonQuote k ++ ": " ++ renderJson (pre ++ "  ") v) :: renderFields pre fs

end

/-- `createUPluginDescriptor` from `src/lib/exporters.ts`. -/
def createUPluginDescriptor (st : AddonState) : String :=
  let modules := st.modules.map (fun module => Json.obj
    [ ("Name", .str module.name)
    , ("Type", .str module.target.toStr)
    , ("LoadingPhase", .str "Default")
    , ("AdditionalDependencies", .arr (module.dependencies.map Json.str)) ])
  renderJson ""
    (Json.obj
      [ ("FileVersion", .num 3)
      , ("Version", .num 1)
      , ("VersionName", .str st.meta.version)
      , ("FriendlyName", .str st.meta.title)
      , ("EngineVersion", .str st.meta.minEngineVersion)
      , ("Description", .str st.meta.description)
      , ("Category", .str "Editor")
      , ("CreatedBy", .str st.meta.author)
      , ("CreatedByURL", .str "https://addon-architect.vercel.app")
      , ("Modules", .arr modules) ])

/-! ### Scaffold renderer pieces -/

/-- `String.prototype.trim` on the character list. -/
def trimChars (cs : List Char) : List Char :=
  ((cs.dropWhile Char.isWhitespace).reverse.dropWhile Char.isWhitespace).reverse

/-- `String.prototype.trim`. -/
def jsTrim (s : String) : String := String.mk (trimChars s.data)

/-- Split a character list on the separator character. -/
def splitCharsOn (sep : Char) : List Char → List (List Char)
  | [] => [[]]
  | c :: rest =>
    if c = sep then [] :: splitCharsOn sep rest
    else
      match splitCharsOn sep rest with
      | [] => [[c]]
      | t :: ts => (c :: t) :: ts

/-- `String.prototype.split("+")` (a one-character separator). -/
def jsSplitPlus (s : String) : List String :=
  (splitCharsOn '+' s.data).map String.mk

/-- `String.prototype.replace(pat, rep)` with a string pattern replaces the
first occurrence only. -/
def replaceFirstChars (pat rep : List Char) : List Char → List Char
  | [] => []
  | c :: rest =>
    if List.isPrefixOf pat (c :: rest) then rep ++ (c :: rest).drop pat.length
    else c :: replaceFirstChars pat rep rest

/-- `String.prototype.replace` with a string pattern (first occurrence only). -/
def jsReplaceFirst (s pat rep : String) : String :=
  String.mk (replaceFirstChars pat.data rep.data s.data)

/-- One hotkey token as emitted inside `FInputChord(...)`:
`EKeys::${token.trim().replace("Ctrl", "LeftControl")}`. -/
def hotkeyToken (token : String) : String :=
  "EKeys::" ++ jsReplaceFirst (jsTrim token) "Ctrl" "LeftControl"

/-- The token list of a hotkey: split on "+", then each token rendered. -/
def hotkeyTokens (hotkey : String) : List String :=
  (jsSplitPlus hotkey).map hotkeyToken

/-- The argument list of `FInputChord` in `createCommandSnippet`:
the rendered tokens joined with the fixed separator. -/
def hotkeyChord (hotkey : String) : String :=
  String.intercalate ", " (hotkeyTokens hotkey)

/-- The part of `createCommandSnippet`'s template before the chord. -/
def commandSnippetHead (c : CommandBinding) : String :=
  "FUICommandInfoDecl(\n    CommandList,\n    \"" ++ c.context ++ "\",\n    \"" ++ c.name ++
    "\",\n    LOCTEXT(\"" ++ c.name ++ "\", \"" ++ c.description ++ "\"),\n    FInputChord("

/-- The part of `createCommandSnippet`'s template after the chord. -/
def commandSnippetTail (c : CommandBinding) : String :=
  "),\n    FSlateIcon()\n).ExecuteAction(FExecuteAction::CreateLambda([]()\n\x7b\n    " ++
    c.script ++ "\n\x7d));"

/-- `createCommandSnippet` from `src/lib/exporters.ts`. -/
def createCommandSnippet (c : CommandBinding) : String :=
  commandSnippetHead c ++ hotkeyChord c.hotkey ++ commandSnippetTail c

/-- The `inputs` local of `createBlueprintNodeSnippet`:
each input as `  kind name;`, joined by newlines. -/
def nodeInputsText (node : BlueprintNode) : String :=
  String.intercalate "\n"
    (node.inputs.map (fun param => "  " ++ param.kind.toStr ++ " " ++ param.name ++ ";"))

/-- The `outputs` local of `createBlueprintNodeSnippet`:
each output as `  kind name[];` (brackets when `isArray` is truthy). -/
def nodeOutputsText (node : BlueprintNode) : String :=
  String.intercalate "\n"
    (node.outputs.map (fun param =>
      "  " ++ param.kind.toStr ++ " " ++ param.name ++
        (if param.isArray.getD false then "[]" else "") ++ ";"))

/-- `x || fallback` on strings: the empty string is falsy in JavaScript. -/
def orIfEmpty (s fallback : String) : String :=
  if s = "" then fallback else s

/-- One `    const kind name` line of the generated signature
(`object` kind becomes a `UObject*` pointer). -/
def nodeSigParam (param : BlueprintParameter) : String :=
  "    " ++ (if param.kind = .object then "UObject*" else "const " ++ param.kind.toStr) ++
    " " ++ param.name

/-- `createBlueprintNodeSnippet`'s template up to (and including) the body
comment block. -/
def nodeSnippetHead (node : BlueprintNode) : String :=
  "UFUNCTION(BlueprintCallable, Category = \"" ++ node.category ++ "\")\n" ++
    "static void " ++ node.title ++ "(\n" ++
    String.intercalate ",\n" (node.inputs.map nodeSigParam) ++
    "\n);\n\n// Description: " ++ node.description ++
    "\n// Body Example:\n/*\n" ++ node.body ++ "\n*/\n"

/-- `createBlueprintNodeSnippet` from `src/lib/exporters.ts`. -/
def createBlueprintNodeSnippet (node : BlueprintNode) : String :=
  nodeSnippetHead node ++
    "// Outputs:\n/*\n" ++ orIfEmpty (nodeOutputsText node) "// void" ++ "\n*/\n" ++
    "// Inputs:\n/*\n" ++ orIfEmpty (nodeInputsText node) "// none" ++ "\n*/"

/-! ## Generic list lemmas for the store's map/filter/mapGen shapes -/

theorem map_if_eq_self {α : Type} (p : α → Prop) [DecidablePred p] (f : α → α) (l : List α)
    (h : ∀ x ∈ l, ¬ p x) :
    l.map (fun x => if p x then f x else x) = l := by
  induction l with
  | nil => rfl
  | cons a l ih =>
    have ha := h a (List.mem_cons_self a l)
    simp [ha, ih (fun x hx => h x (List.mem_cons_of_mem a hx))]

theorem mapGen_nil {α : Type} (f : α → Nat → α × Nat) (g : Nat) :
    mapGen f [] g = ([], g) := rfl

theorem mapGen_cons {α : Type} (f : α → Nat → α × Nat) (x : α) (xs : List α) (g : Nat) :
    mapGen f (x :: xs) g =
      ((f x g).1 :: (mapGen f xs (f x g).2).1, (mapGen f xs (f x g).2).2) := by
  rcases h : f x g with ⟨y, g1⟩
  rcases h2 : mapGen f xs g1 with ⟨ys, g2⟩
  simp [mapGen, h, h2]

theorem mapGen_eq_self {α : Type} (f : α → Nat → α × Nat) (l : List α)
    (h : ∀ x ∈ l, ∀ g, f x g = (x, g)) :
    ∀ g, mapGen f l g = (l, g) := by
  induction l with
  | nil => intro g; rfl
  | cons a l ih =>
    intro g
    rw [mapGen_cons, h a (List.mem_cons_self a l) g]
    simp [ih (fun x hx => h x (List.mem_cons_of_mem a hx)) g]

/-! ## Claim theorems: renderers and simple store facts -/

/-- The descriptor document exactly as claim C5 describes it: the listed
fields in the listed order, the stated integer and string constants, and one
`{Name, Type, LoadingPhase, AdditionalDependencies}` entry per module. -/
def descriptorClaimJson (st : AddonState) : Json :=
  Json.obj
    [ ("FileVersion", .num 3)
    , ("Version", .num 1)
    , ("VersionName", .str st.meta.version)
    , ("FriendlyName", .str st.meta.title)
    , ("EngineVersion", .str st.meta.minEngineVersion)
    , ("Description", .str st.meta.description)
    , ("Category", .str "Editor")
    , ("CreatedBy", .str st.meta.author)
    , ("CreatedByURL", .str "https://addon-architect.vercel.app")
    , ("Modules", .arr (st.modules.map (fun m => Json.obj
        [ ("Name", .str m.name)
        , ("Type", .str m.target.toStr)
        , ("LoadingPhase", .str "Default")
        , ("AdditionalDependencies", .arr (m.dependencies.map Json.str)) ]))) ]

/-- C5: for every model, the descriptor renderer returns the 2-space-indented
JSON serialisation of exactly the document claim C5 lists: `FileVersion` 3,
`Version` 1, `VersionName`/`FriendlyName`/`EngineVersion`/`Description`/
`CreatedBy` from Meta, `Category` "Editor", the fixed `CreatedByURL`, and one
`{Name, Type, LoadingPhase: "Default", AdditionalDependencies}` entry per
module, in that field order. -/
theorem descriptor_matches_claim (st : AddonState) :
    createUPluginDescriptor st = renderJson "" (descriptorClaimJson st) := rfl

/-- C6: the scaffold renderer's command snippet embeds, between its fixed head
and tail, exactly the hotkey tokens obtained by splitting the hotkey on "+",
trimming each token and applying the fixed substitution (Ctrl ↦ the control
key token), joined by the fixed separator ", "; and "Ctrl+Alt+P" yields
exactly three substituted tokens, the first being the control-key token. -/
theorem command_snippet_hotkey_matches_claim (c : CommandBinding) :
    createCommandSnippet c =
      commandSnippetHead c ++ String.intercalate ", " (hotkeyTokens c.hotkey) ++
        commandSnippetTail c ∧
    hotkeyTokens "Ctrl+Alt+P" = ["EKeys::LeftControl", "EKeys::Alt", "EKeys::P"] :=
  ⟨rfl, by decide⟩

/-- C7: a node with no outputs renders its outputs comment block containing
exactly the placeholder "// void", a node with no inputs renders its inputs
comment block containing exactly "// none", and the snippet embeds those
blocks between the fixed comment markers. -/
theorem node_snippet_empty_placeholders (node : BlueprintNode) :
    (node.outputs = [] → orIfEmpty (nodeOutputsText node) "// void" = "// void") ∧
    (node.inputs = [] → orIfEmpty (nodeInputsText node) "// none" = "// none") ∧
    createBlueprintNodeSnippet node =
      nodeSnippetHead node ++
        "// Outputs:\n/*\n" ++ orIfEmpty (nodeOutputsText node) "// void" ++ "\n*/\n" ++
        "// Inputs:\n/*\n" ++ orIfEmpty (nodeInputsText node) "// none" ++ "\n*/" := by
  refine ⟨?_, ?_, rfl⟩
  · intro h
    simp [nodeOutputsText, h, orIfEmpty, String.intercalate]
  · intro h
    simp [nodeInputsText, h, orIfEmpty, String.intercalate]

/-- Witness for C7 at a concrete node with no inputs and no outputs. -/
theorem node_snippet_empty_placeholders_witness :
    orIfEmpty (nodeOutputsText
      { id := 0, title := "T", category := "C", description := "D"
      , inputs := [], outputs := [], body := "B" }) "// void" = "// void" ∧
    orIfEmpty (nodeInputsText
      { id := 0, title := "T", category := "C", description := "D"
      , inputs := [], outputs := [], body := "B" }) "// none" = "// none" :=
  ⟨(node_snippet_empty_placeholders _).1 rfl, (node_snippet_empty_placeholders _).2.1 rfl⟩

/-- C8: `reset` is idempotent — two consecutive resets produce exactly the
same store as one (the embedding even gives literal equality, since the
default content and its ids are a module-level constant). -/
theorem reset_reset_eq_reset (s : Store) : reset (reset s) = reset s := rfl

/-- C10: the default model has null selection while containing one module
with one node, and every `reset` installs the identical constant default
content (identical entity ids included), since the defaults are constructed
exactly once at program start. -/
theorem defaults_fixed_and_reset_reinstalls :
    defaultState.selectedModuleId = none ∧
    defaultState.selectedNodeId = none ∧
    defaultState.modules.map (fun m => m.nodes.length) = [1] ∧
    ∀ s : Store, (reset s).st = defaultState :=
  ⟨rfl, rfl, by decide, fun _ => rfl⟩

/-- C9: `selectModule` with a non-null id matching no module still records
that id as the selected module, clears the node selection, and leaves the
modules, the Meta and the generator untouched. -/
theorem selectModule_missing_id (s : Store) (i : Nat)
    (h : ∀ m ∈ s.st.modules, m.id ≠ i) :
    selectModule (some i) s =
      { s with st := { s.st with selectedModuleId := some i, selectedNodeId := none } } := by
  have hf : s.st.modules.find? (fun m => m.id == i) = none :=
    List.find?_eq_none.mpr (fun m hm => by simp [h m hm])
  simp [selectModule, hf]

/-- Witness for C9 at the default store and the absent id 42. -/
theorem selectModule_missing_id_witness :
    (∀ m ∈ defaultStore.st.modules, m.id ≠ 42) ∧
    selectModule (some 42) defaultStore =
      { defaultStore with st :=
          { defaultStore.st with selectedModuleId := some 42, selectedNodeId := none } } :=
  ⟨by decide, selectModule_missing_id defaultStore 42 (by decide)⟩

/-- C1 counterexample: `addNode` called with a moduleId matching no module is
not a no-op — it changes `selectedModuleId` (and `selectedNodeId`). -/
theorem addNode_missing_changes_selection :
    (∀ m ∈ defaultStore.st.modules, m.id ≠ 999) ∧
    (addNode 999 defaultStore).st.selectedModuleId ≠ defaultStore.st.selectedModuleId := by
  decide

/-- C1 amended: with an id argument matching no module, `cloneModule` and all
patch- and filter-shaped operations return the store completely unchanged,
while `addNode`, `removeNode` and `removeModule` leave Meta and modules
unchanged but rewrite the selection fields: `addNode` selects the missing id
and the fresh node id, `removeNode` the missing id and null, and
`removeModule` the last module's id and the first node of the module looked
up under that id (or null when the model is empty). -/
theorem missing_module_id_ops (s : Store) (i : Nat)
    (h : ∀ m ∈ s.st.modules, m.id ≠ i) :
    cloneModule i s = s ∧
    (∀ p, updateModule i p s = s) ∧
    (∀ n p, updateNode i n p s = s) ∧
    (∀ n pl, addParameter i n pl s = s) ∧
    (∀ n pl q p, updateParameter i n pl q p s = s) ∧
    (∀ n pl q, removeParameter i n pl q s = s) ∧
    addCommand i s = s ∧
    (∀ c p, updateCommand i c p s = s) ∧
    (∀ c, removeCommand i c s = s) ∧
    (∀ n, removeNode i n s =
      { s with st := { s.st with selectedModuleId := some i, selectedNodeId := none } }) ∧
    addNode i s =
      { st := { s.st with selectedModuleId := some i, selectedNodeId := some s.gen }
      , gen := s.gen + 3 } ∧
    (removeModule i s).st.meta = s.st.meta ∧
    (removeModule i s).st.modules = s.st.modules ∧
    (removeModule i s).st.selectedModuleId = (s.st.modules.getLast?).map (fun m => m.id) ∧
    (removeModule i s).st.selectedNodeId =
      (match (s.st.modules.getLast?).map (fun m => m.id) with
      | none => none
      | some nid =>
        ((s.st.modules.find? (fun m => m.id == nid)).bind (fun m => m.nodes.head?)).map
          (fun n => n.id)) := by
  have hb : ∀ m ∈ s.st.modules, (m.id == i) = false := fun m hm => by simp [h m hm]
  have hmap : ∀ f : AddonModule → AddonModule,
      s.st.modules.map (fun m => if m.id = i then f m else m) = s.st.modules :=
    fun f => map_if_eq_self (fun m => m.id = i) f s.st.modules h
  have hfind : s.st.modules.find? (fun m => m.id == i) = none :=
    List.find?_eq_none.mpr (fun m hm => by simp [h m hm])
  have hfilter : s.st.modules.filter (fun m => m.id != i) = s.st.modules := by
    rw [List.filter_eq_self]
    intro m hm
    simp [h m hm]
  refine ⟨?_, ?_, ?_, ?_, ?_, ?_, ?_, ?_, ?_, ?_, ?_, ?_, ?_, ?_, ?_⟩
  · simp [cloneModule, hfind]
  · intro p; simp [updateModule, hmap]
  · intro n p; simp [updateNode, hmap]
  · intro n pl
    unfold addParameter
    rw [mapGen_eq_self _ _ (fun m hm g => by simp [addParamToModule, hb m hm]) s.gen]
  · intro n pl q p; simp [updateParameter, hmap]
  · intro n pl q; simp [removeParameter, hmap]
  · unfold addCommand
    rw [mapGen_eq_self _ _ (fun m hm g => by simp [addCommandToModule, hb m hm]) s.gen]
  · intro c p; simp [updateCommand, hmap]
  · intro c; simp [removeCommand, hmap]
  · intro n
    simp [removeNode, hmap, hfind]
  · simp only [addNode, createNode, createParameter, beq_iff_eq]
    rw [hmap]
  · simp [removeModule, hfilter]
  · simp [removeModule, hfilter]
  · simp [removeModule, hfilter]
  · simp [removeModule, hfilter]

/-- Witness for the amended C1 at the default store and the absent id 999. -/
theorem missing_module_id_ops_witness :
    (∀ m ∈ defaultStore.st.modules, m.id ≠ 999) ∧
    cloneModule 999 defaultStore = defaultStore :=
  ⟨by decide, (missing_module_id_ops defaultStore 999 (by decide)).1⟩

/-- C2 counterexample: one `selectNode` call from the default model reaches a
model whose `selectedNodeId` names no node of any selected module (the
selection invariant fails). -/
theorem selectNode_breaks_selection_invariant :
    Reach (applyOp (.selectNode (some 999)) defaultStore) ∧
    ¬ SelOk (applyOp (.selectNode (some 999)) defaultStore).st :=
  ⟨Reach.step defaultStore (.selectNode (some 999)) Reach.init, by decide⟩

/-- The patch used in the C4 counterexample: it only sets `id`. -/
def dupIdPatch : ModulePatch := { id := some 0 }

/-- C4 counterexample: `addModule` followed by `updateModule` with a patch
that sets `id` to the first module's id reaches a model with two modules of
equal id — id uniqueness fails under arbitrary patches. -/
theorem updateModule_breaks_unique_ids :
    Reach (applyOp (.updateModule 5 dupIdPatch) (applyOp .addModule defaultStore)) ∧
    ((applyOp (.updateModule 5 dupIdPatch) (applyOp .addModule defaultStore)).st.modules.map
      (fun m => m.id)) = [0, 0] ∧
    ¬ UniqueState (applyOp (.updateModule 5 dupIdPatch) (applyOp .addModule defaultStore)).st :=
  ⟨Reach.step _ _ (Reach.step _ _ Reach.init), by decide, by decide⟩

/-! ## Generic facts about `mapGen` -/

theorem mapGen_snd_ge {α : Type} (f : α → Nat → α × Nat)
    (hle : ∀ x g, g ≤ (f x g).2) (l : List α) :
    ∀ g, g ≤ (mapGen f l g).2 := by
  induction l with
  | nil => intro g; exact le_refl g
  | cons a l ih =>
    intro g
    simp only [mapGen_cons]
    exact le_trans (hle a g) (ih (f a g).2)

theorem mapGen_map_proj {α β : Type} (f : α → Nat → α × Nat) (proj : α → β)
    (hp : ∀ x g, proj (f x g).1 = proj x) (l : List α) :
    ∀ g, ((mapGen f l g).1).map proj = l.map proj := by
  induction l with
  | nil => intro g; rfl
  | cons a l ih =>
    intro g
    simp only [mapGen_cons, List.map_cons]
    rw [hp, ih]

theorem mapGen_mem_imp_ge {α : Type} (f : α → Nat → α × Nat) (g0 : Nat) (Q : α → Prop)
    (l : List α) (hle : ∀ x g, g ≤ (f x g).2)
    (hf : ∀ x ∈ l, ∀ g, g0 ≤ g → Q (f x g).1) :
    ∀ g, g0 ≤ g → ∀ y ∈ (mapGen f l g).1, Q y := by
  induction l with
  | nil => intro g _ y hy; simp [mapGen_nil] at hy
  | cons a l ih =>
    intro g hg y hy
    simp only [mapGen_cons, List.mem_cons] at hy
    rcases hy with hy | hy
    · exact hy ▸ hf a (List.mem_cons_self a l) g hg
    · exact ih (fun x hx => hf x (List.mem_cons_of_mem a hx)) (f a g).2
        (le_trans hg (hle a g)) y hy

theorem mapGen_mem_of_mem {α : Type} (f : α → Nat → α × Nat) (l : List α) (x : α)
    (hx : x ∈ l) : ∀ g, ∃ g', (f x g').1 ∈ (mapGen f l g).1 := by
  induction l with
  | nil => cases hx
  | cons a l ih =>
    intro g
    rcases List.mem_cons.mp hx with h | h
    · subst h
      exact ⟨g, by simp [mapGen_cons]⟩
    · obtain ⟨g', hg'⟩ := ih h (f a g).2
      exact ⟨g', by simp [mapGen_cons, hg']⟩

theorem mapGen_ids_or_window {α : Type} (f : α → Nat → α × Nat) (idsOf : α → List Nat)
    (hf : ∀ x g, ∀ a ∈ idsOf (f x g).1, a ∈ idsOf x ∨ (g ≤ a ∧ a < (f x g).2))
    (hle : ∀ x g, g ≤ (f x g).2) (l : List α) :
    ∀ g a, a ∈ (((mapGen f l g).1).map idsOf).flatten →
      a ∈ (l.map idsOf).flatten ∨ (g ≤ a ∧ a < (mapGen f l g).2) := by
  induction l with
  | nil => intro g a ha; simp [mapGen_nil] at ha
  | cons x l ih =>
    intro g a ha
    simp only [mapGen_cons, List.map_cons, List.flatten_cons, List.mem_append] at ha
    have hend : (f x g).2 ≤ (mapGen f l (f x g).2).2 := mapGen_snd_ge f hle l (f x g).2
    rcases ha with ha | ha
    · rcases hf x g a ha with h | ⟨h1, h2⟩
      · left; simp [h]
      · right
        refine ⟨h1, lt_of_lt_of_le h2 ?_⟩
        simpa [mapGen_cons] using hend
    · rcases ih (f x g).2 a ha with h | ⟨h1, h2⟩
      · left; simp [h]
      · right
        exact ⟨le_trans (hle x g) h1, by simpa [mapGen_cons] using h2⟩

theorem mapGen_ids_window {α : Type} (f : α → Nat → α × Nat) (idsOf : α → List Nat)
    (hf : ∀ x g, ∀ a ∈ idsOf (f x g).1, g ≤ a ∧ a < (f x g).2)
    (hle : ∀ x g, g ≤ (f x g).2) (l : List α) :
    ∀ g a, a ∈ (((mapGen f l g).1).map idsOf).flatten →
      g ≤ a ∧ a < (mapGen f l g).2 := by
  induction l with
  | nil => intro g a ha; simp [mapGen_nil] at ha
  | cons x l ih =>
    intro g a ha
    simp only [mapGen_cons, List.map_cons, List.flatten_cons, List.mem_append] at ha
    have hend : (f x g).2 ≤ (mapGen f l (f x g).2).2 := mapGen_snd_ge f hle l (f x g).2
    simp only [mapGen_cons]
    rcases ha with ha | ha
    · obtain ⟨h1, h2⟩ := hf x g a ha
      exact ⟨h1, lt_of_lt_of_le h2 hend⟩
    · obtain ⟨h1, h2⟩ := ih (f x g).2 a ha
      exact ⟨le_trans (hle x g) h1, h2⟩

theorem mapGen_ids_nodup {α : Type} (f : α → Nat → α × Nat) (idsOf : α → List Nat)
    (hf : ∀ x g, ∀ a ∈ idsOf (f x g).1, g ≤ a ∧ a < (f x g).2)
    (hle : ∀ x g, g ≤ (f x g).2)
    (hnd : ∀ x g, (idsOf (f x g).1).Nodup) (l : List α) :
    ∀ g, ((((mapGen f l g).1).map idsOf).flatten).Nodup := by
  induction l with
  | nil => intro g; simp [mapGen_nil]
  | cons x l ih =>
    intro g
    simp only [mapGen_cons, List.map_cons, List.flatten_cons]
    rw [List.nodup_append]
    refine ⟨hnd x g, ih (f x g).2, ?_⟩
    intro a ha hb
    obtain ⟨_, h2⟩ := hf x g a ha
    obtain ⟨h3, _⟩ := mapGen_ids_window f idsOf hf hle l (f x g).2 a hb
    exact absurd (lt_of_lt_of_le h2 h3) (lt_irrefl a)

theorem flatten_map_singleton {α : Type} (f : α → Nat) (l : List α) :
    (l.map (fun x => [f x])).flatten = l.map f := by
  induction l with
  | nil => rfl
  | cons a l ih => simp [ih]

/-! ## Shapes: every field of an entity except the ids -/

/-- The non-id content of a parameter. -/
def paramShape (p : BlueprintParameter) :
    String × ParameterKind × Option String × Option String × Option Bool :=
  (p.name, p.kind, p.defaultValue, p.description, p.isArray)

/-- The non-id content of a node (parameters taken by shape). -/
def nodeShape (n : BlueprintNode) :=
  (n.title, n.category, n.description, n.inputs.map paramShape, n.outputs.map paramShape, n.body)

/-- The non-id content of a command. -/
def commandShape (c : CommandBinding) : String × String × String × String × String :=
  (c.name, c.context, c.hotkey, c.description, c.script)

/-! ## Facts about the clone helpers -/

theorem cloneParam_snd (p : BlueprintParameter) (g : Nat) : (cloneParam p g).2 = g + 1 := rfl

theorem cloneParam_le (p : BlueprintParameter) (g : Nat) : g ≤ (cloneParam p g).2 :=
  Nat.le_succ g

theorem cloneParam_ids (p : BlueprintParameter) (g : Nat) :
    ∀ a ∈ [(cloneParam p g).1.id], g ≤ a ∧ a < (cloneParam p g).2 := by
  intro a ha
  simp [cloneParam] at ha
  simp [cloneParam, ha]

theorem cloneParam_shape (p : BlueprintParameter) (g : Nat) :
    paramShape (cloneParam p g).1 = paramShape p := rfl

theorem mem_nodeIdsAll_self (n : BlueprintNode) : n.id ∈ nodeIdsAll n :=
  List.mem_cons_self _ _

theorem cloneNode_eq (n : BlueprintNode) (g : Nat) :
    cloneNode n g =
      ({ n with
          id := g,
          inputs := (mapGen cloneParam n.inputs (g + 1)).1,
          outputs := (mapGen cloneParam n.outputs (mapGen cloneParam n.inputs (g + 1)).2).1 },
        (mapGen cloneParam n.outputs (mapGen cloneParam n.inputs (g + 1)).2).2) := by
  rcases h1 : mapGen cloneParam n.inputs (g + 1) with ⟨ins, ga⟩
  rcases h2 : mapGen cloneParam n.outputs ga with ⟨outs, gb⟩
  simp [cloneNode, h1, h2]

theorem cloneModuleFn_eq (m : AddonModule) (g : Nat) :
    cloneModuleFn m g =
      ({ m with
          id := g,
          name := m.name ++ "Copy",
          nodes := (mapGen cloneNode m.nodes (g + 1)).1,
          commands := (mapGen cloneCommand m.commands (mapGen cloneNode m.nodes (g + 1)).2).1 },
        (mapGen cloneCommand m.commands (mapGen cloneNode m.nodes (g + 1)).2).2) := by
  rcases h1 : mapGen cloneNode m.nodes (g + 1) with ⟨ns, ga⟩
  rcases h2 : mapGen cloneCommand m.commands ga with ⟨cs, gb⟩
  simp [cloneModuleFn, h1, h2]

theorem cloneNode_le (n : BlueprintNode) (g : Nat) : g ≤ (cloneNode n g).2 := by
  have h1 : g + 1 ≤ (mapGen cloneParam n.inputs (g + 1)).2 :=
    mapGen_snd_ge cloneParam cloneParam_le n.inputs (g + 1)
  have h2 := mapGen_snd_ge cloneParam cloneParam_le n.outputs
    (mapGen cloneParam n.inputs (g + 1)).2
  simp only [cloneNode_eq]
  omega

theorem cloneNode_ids (n : BlueprintNode) (g : Nat) :
    ∀ a ∈ nodeIdsAll (cloneNode n g).1, g ≤ a ∧ a < (cloneNode n g).2 := by
  have hins := mapGen_ids_window cloneParam (fun p => [p.id]) cloneParam_ids cloneParam_le
    n.inputs (g + 1)
  have houts := mapGen_ids_window cloneParam (fun p => [p.id]) cloneParam_ids cloneParam_le
    n.outputs (mapGen cloneParam n.inputs (g + 1)).2
  have h1 : g + 1 ≤ (mapGen cloneParam n.inputs (g + 1)).2 :=
    mapGen_snd_ge cloneParam cloneParam_le n.inputs (g + 1)
  have h2 := mapGen_snd_ge cloneParam cloneParam_le n.outputs
    (mapGen cloneParam n.inputs (g + 1)).2
  simp only [flatten_map_singleton] at hins houts
  intro a ha
  simp only [cloneNode_eq, nodeIdsAll, List.mem_cons, List.mem_append] at ha
  simp only [cloneNode_eq]
  rcases ha with ha | ha | ha
  · subst ha; omega
  · have := hins a ha; omega
  · have := houts a ha; omega

theorem cloneNode_unique (n : BlueprintNode) (g : Nat) : UniqueNode (cloneNode n g).1 := by
  have hins := mapGen_ids_nodup cloneParam (fun p => [p.id]) cloneParam_ids cloneParam_le
    (fun p g => by simp) n.inputs (g + 1)
  have houts := mapGen_ids_nodup cloneParam (fun p => [p.id]) cloneParam_ids cloneParam_le
    (fun p g => by simp) n.outputs (mapGen cloneParam n.inputs (g + 1)).2
  simp only [flatten_map_singleton] at hins houts
  simp only [cloneNode_eq, UniqueNode]
  exact ⟨hins, houts⟩

theorem cloneNode_ids_nodup (n : BlueprintNode) (g : Nat) :
    (nodeIdsAll (cloneNode n g).1).Nodup := by
  have hins := mapGen_ids_nodup cloneParam (fun p => [p.id]) cloneParam_ids cloneParam_le
    (fun p g => by simp) n.inputs (g + 1)
  have houts := mapGen_ids_nodup cloneParam (fun p => [p.id]) cloneParam_ids cloneParam_le
    (fun p g => by simp) n.outputs (mapGen cloneParam n.inputs (g + 1)).2
  have hinw := mapGen_ids_window cloneParam (fun p => [p.id]) cloneParam_ids cloneParam_le
    n.inputs (g + 1)
  have houtw := mapGen_ids_window cloneParam (fun p => [p.id]) cloneParam_ids cloneParam_le
    n.outputs (mapGen cloneParam n.inputs (g + 1)).2
  have h1 : g + 1 ≤ (mapGen cloneParam n.inputs (g + 1)).2 :=
    mapGen_snd_ge cloneParam cloneParam_le n.inputs (g + 1)
  simp only [flatten_map_singleton] at hins houts hinw houtw
  simp only [cloneNode_eq, nodeIdsAll, List.nodup_cons, List.mem_append, List.nodup_append]
  refine ⟨?_, hins, houts, ?_⟩
  · rintro (ha | ha)
    · have := hinw _ ha; omega
    · have := houtw _ ha; omega
  · intro a ha hb
    have := hinw _ ha
    have := houtw _ hb
    omega

theorem cloneNode_shape (n : BlueprintNode) (g : Nat) :
    nodeShape (cloneNode n g).1 = nodeShape n := by
  have hins := mapGen_map_proj cloneParam paramShape (fun p g => rfl) n.inputs (g + 1)
  have houts := mapGen_map_proj cloneParam paramShape (fun p g => rfl) n.outputs
    (mapGen cloneParam n.inputs (g + 1)).2
  simp only [cloneNode_eq, nodeShape]
  rw [hins, houts]

theorem cloneCommand_le (c : CommandBinding) (g : Nat) : g ≤ (cloneCommand c g).2 :=
  Nat.le_succ g

theorem cloneCommand_ids (c : CommandBinding) (g : Nat) :
    ∀ a ∈ [(cloneCommand c g).1.id], g ≤ a ∧ a < (cloneCommand c g).2 := by
  intro a ha
  simp [cloneCommand] at ha
  simp [cloneCommand, ha]

theorem cloneNode_id_singleton (n : BlueprintNode) (g : Nat) :
    ∀ a ∈ [(cloneNode n g).1.id], g ≤ a ∧ a < (cloneNode n g).2 := by
  intro a ha
  have h := cloneNode_ids n g ((cloneNode n g).1.id) (mem_nodeIdsAll_self _)
  simp only [List.mem_singleton] at ha
  exact ha ▸ h

theorem cloneModuleFn_le (m : AddonModule) (g : Nat) : g ≤ (cloneModuleFn m g).2 := by
  have h1 : g + 1 ≤ (mapGen cloneNode m.nodes (g + 1)).2 :=
    mapGen_snd_ge cloneNode cloneNode_le m.nodes (g + 1)
  have h2 := mapGen_snd_ge cloneCommand cloneCommand_le m.commands
    (mapGen cloneNode m.nodes (g + 1)).2
  simp only [cloneModuleFn_eq]
  omega

theorem cloneModuleFn_ids (m : AddonModule) (g : Nat) :
    ∀ a ∈ moduleIdsAll (cloneModuleFn m g).1, g ≤ a ∧ a < (cloneModuleFn m g).2 := by
  have hns := mapGen_ids_window cloneNode nodeIdsAll cloneNode_ids cloneNode_le
    m.nodes (g + 1)
  have hcs := mapGen_ids_window cloneCommand (fun c => [c.id]) cloneCommand_ids
    cloneCommand_le m.commands (mapGen cloneNode m.nodes (g + 1)).2
  have h1 : g + 1 ≤ (mapGen cloneNode m.nodes (g + 1)).2 :=
    mapGen_snd_ge cloneNode cloneNode_le m.nodes (g + 1)
  have h2 := mapGen_snd_ge cloneCommand cloneCommand_le m.commands
    (mapGen cloneNode m.nodes (g + 1)).2
  simp only [flatten_map_singleton] at hcs
  intro a ha
  simp only [cloneModuleFn_eq, moduleIdsAll, List.mem_cons, List.mem_append] at ha
  simp only [cloneModuleFn_eq]
  rcases ha with ha | ha | ha
  · subst ha; omega
  · have := hns a ha; omega
  · have := hcs a ha; omega

theorem cloneModuleFn_unique (m : AddonModule) (g : Nat) :
    UniqueModule (cloneModuleFn m g).1 := by
  have hnids := mapGen_ids_nodup cloneNode (fun n => [n.id]) cloneNode_id_singleton
    cloneNode_le (fun n g => by simp) m.nodes (g + 1)
  have hcids := mapGen_ids_nodup cloneCommand (fun c => [c.id]) cloneCommand_ids
    cloneCommand_le (fun c g => by simp) m.commands (mapGen cloneNode m.nodes (g + 1)).2
  have hall := mapGen_mem_imp_ge cloneNode 0 UniqueNode m.nodes cloneNode_le
    (fun n _ g _ => cloneNode_unique n g) (g + 1) (Nat.zero_le _)
  simp only [flatten_map_singleton] at hnids hcids
  simp only [cloneModuleFn_eq, UniqueModule]
  exact ⟨hnids, hcids, fun n hn => hall n hn⟩

theorem cloneModuleFn_shape (m : AddonModule) (g : Nat) :
    (cloneModuleFn m g).1.name = m.name ++ "Copy" ∧
    (cloneModuleFn m g).1.target = m.target ∧
    (cloneModuleFn m g).1.description = m.description ∧
    (cloneModuleFn m g).1.dependencies = m.dependencies ∧
    (cloneModuleFn m g).1.nodes.map nodeShape = m.nodes.map nodeShape ∧
    (cloneModuleFn m g).1.commands.map commandShape = m.commands.map commandShape := by
  have hns := mapGen_map_proj cloneNode nodeShape cloneNode_shape m.nodes (g + 1)
  have hcs := mapGen_map_proj cloneCommand commandShape (fun c g => rfl) m.commands
    (mapGen cloneNode m.nodes (g + 1)).2
  simp [cloneModuleFn_eq, hns, hcs]

/-- C3: when the model contains a module `m` found under id `i` and the id
generator is fresh for the model (the embedding of UUID uniqueness),
`cloneModule i` appends a clone whose every nested id (its own, its nodes',
their input and output parameters', and its commands') is disjoint from every
id occurring anywhere in the model, whose name is `m`'s name with the fixed
suffix "Copy", and whose every other non-id field is value-equal to `m`'s. -/
theorem cloneModule_spec (s : Store) (i : Nat) (m : AddonModule)
    (hfresh : Fresh s)
    (hm : s.st.modules.find? (fun x => x.id == i) = some m) :
    ∃ c,
      (cloneModule i s).st.modules = s.st.modules ++ [c] ∧
      (∀ a ∈ moduleIdsAll c, ∀ b ∈ stateIds s.st, a ≠ b) ∧
      c.name = m.name ++ "Copy" ∧
      c.target = m.target ∧
      c.description = m.description ∧
      c.dependencies = m.dependencies ∧
      c.nodes.map nodeShape = m.nodes.map nodeShape ∧
      c.commands.map commandShape = m.commands.map commandShape := by
  obtain ⟨hname, htarget, hdesc, hdeps, hnodes, hcmds⟩ := cloneModuleFn_shape m s.gen
  refine ⟨(cloneModuleFn m s.gen).1, ?_, ?_, hname, htarget, hdesc, hdeps, hnodes, hcmds⟩
  · unfold cloneModule
    rw [hm]
  · intro a ha b hb
    have h1 := (cloneModuleFn_ids m s.gen a ha).1
    have h2 := hfresh b hb
    omega

/-- Witness for C3 at the default store, cloning the default module (id 0). -/
theorem cloneModule_spec_witness :
    Fresh defaultStore ∧
    defaultStore.st.modules.find? (fun x => x.id == 0) = some (createModule 0).1 ∧
    ∃ c,
      (cloneModule 0 defaultStore).st.modules = defaultStore.st.modules ++ [c] ∧
      (∀ a ∈ moduleIdsAll c, ∀ b ∈ stateIds defaultStore.st, a ≠ b) ∧
      c.name = (createModule 0).1.name ++ "Copy" ∧
      c.target = (createModule 0).1.target ∧
      c.description = (createModule 0).1.description ∧
      c.dependencies = (createModule 0).1.dependencies ∧
      c.nodes.map nodeShape = (createModule 0).1.nodes.map nodeShape ∧
      c.commands.map commandShape = (createModule 0).1.commands.map commandShape :=
  ⟨by unfold Fresh; decide, by rfl,
    cloneModule_spec defaultStore 0 (createModule 0).1 (by unfold Fresh; decide) (by rfl)⟩

/-! ## The id-uniqueness invariant and its preservation -/

/-- The store invariant: the generator is fresh for the model, ids are unique
in every containing collection, and the counter is at least its start value. -/
def Inv (s : Store) : Prop :=
  Fresh s ∧ UniqueState s.st ∧ defaultBuild.2 ≤ s.gen

theorem stateIds_mem (st : AddonState) (a : Nat) :
    a ∈ stateIds st ↔ ∃ m ∈ st.modules, a ∈ moduleIdsAll m := by
  constructor
  · intro ha
    simp only [stateIds, List.mem_flatten, List.mem_map] at ha
    obtain ⟨l, ⟨m, hm, rfl⟩, hal⟩ := ha
    exact ⟨m, hm, hal⟩
  · rintro ⟨m, hm, ha⟩
    simp only [stateIds, List.mem_flatten, List.mem_map]
    exact ⟨moduleIdsAll m, ⟨m, hm, rfl⟩, ha⟩

theorem fresh_module (s : Store) (hf : Fresh s) (m : AddonModule)
    (hm : m ∈ s.st.modules) : ∀ a ∈ moduleIdsAll m, a < s.gen :=
  fun a ha => hf a ((stateIds_mem _ _).mpr ⟨m, hm, ha⟩)

theorem mem_moduleIdsAll_self (m : AddonModule) : m.id ∈ moduleIdsAll m :=
  List.mem_cons_self _ _

theorem nodeIdsAll_sub_module (m : AddonModule) :
    ∀ n ∈ m.nodes, ∀ a ∈ nodeIdsAll n, a ∈ moduleIdsAll m := by
  intro n hn a ha
  simp only [moduleIdsAll, List.mem_cons, List.mem_append, List.mem_flatten, List.mem_map]
  exact Or.inr (Or.inl ⟨nodeIdsAll n, ⟨n, hn, rfl⟩, ha⟩)

theorem commandId_sub_module (m : AddonModule) :
    ∀ c ∈ m.commands, c.id ∈ moduleIdsAll m := by
  intro c hc
  simp only [moduleIdsAll, List.mem_cons, List.mem_append, List.mem_map]
  exact Or.inr (Or.inr ⟨c, hc, rfl⟩)

theorem paramId_sub_node (n : BlueprintNode) :
    (∀ p ∈ n.inputs, p.id ∈ nodeIdsAll n) ∧ (∀ p ∈ n.outputs, p.id ∈ nodeIdsAll n) := by
  constructor <;> intro p hp <;>
    simp only [nodeIdsAll, List.mem_cons, List.mem_append, List.mem_map]
  · exact Or.inr (Or.inl ⟨p, hp, rfl⟩)
  · exact Or.inr (Or.inr ⟨p, hp, rfl⟩)

/-- Operations that leave the module list and the counter untouched
preserve the invariant. -/
theorem inv_same (s s' : Store) (hm : s'.st.modules = s.st.modules)
    (hg : s'.gen = s.gen) (h : Inv s) : Inv s' := by
  obtain ⟨h1, h2, h3⟩ := h
  have hids : stateIds s'.st = stateIds s.st := by
    unfold stateIds; rw [hm]
  refine ⟨?_, ?_, hg ▸ h3⟩
  · intro a ha
    rw [hids] at ha
    rw [hg]
    exact h1 a ha
  · unfold UniqueState at h2 ⊢
    rw [hm]
    exact h2

/-- Freshness is preserved by a per-module map whose new ids stay below the
new counter. -/
theorem fresh_map (s : Store) (F : AddonModule → AddonModule) (gnew : Nat)
    (hg : s.gen ≤ gnew)
    (hids : ∀ m ∈ s.st.modules, ∀ a ∈ moduleIdsAll (F m), a ∈ moduleIdsAll m ∨ a < gnew)
    (hf : Fresh s) :
    Fresh { st := { s.st with modules := s.st.modules.map F }, gen := gnew } := by
  intro a ha
  rw [stateIds_mem] at ha
  obtain ⟨m', hm', ha⟩ := ha
  simp only [List.mem_map] at hm'
  obtain ⟨m, hm, rfl⟩ := hm'
  rcases hids m hm a ha with h | h
  · exact lt_of_lt_of_le (hf a ((stateIds_mem _ _).mpr ⟨m, hm, h⟩)) hg
  · exact h

/-- Uniqueness is preserved by a per-module map that keeps module ids and
module-level uniqueness. -/
theorem unique_map (st : AddonState) (F : AddonModule → AddonModule)
    (hid : ∀ m ∈ st.modules, (F m).id = m.id)
    (hum : ∀ m ∈ st.modules, UniqueModule m → UniqueModule (F m))
    (hu : UniqueState st) :
    UniqueState { st with modules := st.modules.map F } := by
  obtain ⟨h1, h2⟩ := hu
  constructor
  · rw [List.map_map]
    have he : st.modules.map ((fun m => m.id) ∘ F) = st.modules.map (fun m => m.id) :=
      List.map_congr_left (fun m hm => hid m hm)
    rw [he]
    exact h1
  · intro m' hm'
    obtain ⟨m, hm, rfl⟩ := List.mem_map.mp hm'
    exact hum m hm (h2 m hm)

/-- Freshness is preserved by a counter-threaded per-module map whose new ids
lie in the consumed counter window. -/
theorem fresh_mapGen (s : Store) (f : AddonModule → Nat → AddonModule × Nat)
    (hle : ∀ m g, g ≤ (f m g).2)
    (hids : ∀ m g, ∀ a ∈ moduleIdsAll (f m g).1,
      a ∈ moduleIdsAll m ∨ (g ≤ a ∧ a < (f m g).2))
    (hf : Fresh s) :
    Fresh { st := { s.st with modules := (mapGen f s.st.modules s.gen).1 }
          , gen := (mapGen f s.st.modules s.gen).2 } := by
  intro a ha
  have h := mapGen_ids_or_window f moduleIdsAll hids hle s.st.modules s.gen a ha
  rcases h with h | ⟨_, h2⟩
  · exact lt_of_lt_of_le (hf a h)
      (mapGen_snd_ge f hle s.st.modules s.gen)
  · exact h2

/-- Uniqueness is preserved by a counter-threaded per-module map that keeps
module ids and, from a fresh counter on, module-level uniqueness. -/
theorem unique_mapGen (s : Store) (f : AddonModule → Nat → AddonModule × Nat)
    (hle : ∀ m g, g ≤ (f m g).2)
    (hid : ∀ m g, ((f m g).1).id = m.id)
    (hum : ∀ m ∈ s.st.modules, ∀ g, s.gen ≤ g → UniqueModule ((f m g).1))
    (hu : UniqueState s.st) :
    UniqueState { s.st with modules := (mapGen f s.st.modules s.gen).1 } := by
  obtain ⟨h1, h2⟩ := hu
  constructor
  · have he := mapGen_map_proj f (fun m => m.id) (fun m g => hid m g) s.st.modules s.gen
    simpa [he] using h1
  · intro m' hm'
    exact mapGen_mem_imp_ge f s.gen UniqueModule s.st.modules hle hum s.gen (le_refl _) m' hm'

/-! ### Patches that keep id-bearing fields intact -/

theorem applyModulePatch_keeps (p : ModulePatch) (hp : p.KeepsIds) (m : AddonModule) :
    (applyModulePatch p m).id = m.id ∧ (applyModulePatch p m).nodes = m.nodes ∧
      (applyModulePatch p m).commands = m.commands := by
  obtain ⟨h1, h2, h3⟩ := hp
  simp [applyModulePatch, h1, h2, h3]

theorem moduleIdsAll_applyModulePatch (p : ModulePatch) (hp : p.KeepsIds) (m : AddonModule) :
    moduleIdsAll (applyModulePatch p m) = moduleIdsAll m := by
  obtain ⟨h1, h2, h3⟩ := applyModulePatch_keeps p hp m
  simp [moduleIdsAll, h1, h2, h3]

theorem uniqueModule_applyModulePatch (p : ModulePatch) (hp : p.KeepsIds) (m : AddonModule)
    (h : UniqueModule m) : UniqueModule (applyModulePatch p m) := by
  obtain ⟨_, h2, h3⟩ := applyModulePatch_keeps p hp m
  unfold UniqueModule at h ⊢
  rw [h2, h3]
  exact h

theorem applyNodePatch_keeps (p : NodePatch) (hp : p.KeepsIds) (n : BlueprintNode) :
    (applyNodePatch p n).id = n.id ∧ (applyNodePatch p n).inputs = n.inputs ∧
      (applyNodePatch p n).outputs = n.outputs := by
  obtain ⟨h1, h2, h3⟩ := hp
  simp [applyNodePatch, h1, h2, h3]

theorem nodeIdsAll_applyNodePatch (p : NodePatch) (hp : p.KeepsIds) (n : BlueprintNode) :
    nodeIdsAll (applyNodePatch p n) = nodeIdsAll n := by
  obtain ⟨h1, h2, h3⟩ := applyNodePatch_keeps p hp n
  simp [nodeIdsAll, h1, h2, h3]

theorem uniqueNode_applyNodePatch (p : NodePatch) (hp : p.KeepsIds) (n : BlueprintNode)
    (h : UniqueNode n) : UniqueNode (applyNodePatch p n) := by
  obtain ⟨_, h2, h3⟩ := applyNodePatch_keeps p hp n
  unfold UniqueNode at h ⊢
  rw [h2, h3]
  exact h

theorem applyParamPatch_id (p : ParamPatch) (hp : p.id = none) (q : BlueprintParameter) :
    (applyParamPatch p q).id = q.id := by
  simp [applyParamPatch, hp]

theorem applyCommandPatch_id (p : CommandPatch) (hp : p.id = none) (c : CommandBinding) :
    (applyCommandPatch p c).id = c.id := by
  simp [applyCommandPatch, hp]

/-! ### Structural sub-lemmas on module transformations -/

theorem moduleIdsAll_nodes_sub (m : AddonModule) (ns : List BlueprintNode)
    (hsub : ∀ a, (∃ n ∈ ns, a ∈ nodeIdsAll n) → ∃ n ∈ m.nodes, a ∈ nodeIdsAll n) :
    ∀ a ∈ moduleIdsAll { m with nodes := ns }, a ∈ moduleIdsAll m := by
  intro a ha
  simp only [moduleIdsAll, List.mem_cons, List.mem_append, List.mem_flatten,
    List.mem_map] at ha ⊢
  rcases ha with h | h | h
  · exact Or.inl h
  · obtain ⟨l, ⟨n, hn, rfl⟩, hal⟩ := h
    obtain ⟨n', hn', ha'⟩ := hsub a ⟨n, hn, hal⟩
    exact Or.inr (Or.inl ⟨nodeIdsAll n', ⟨n', hn', rfl⟩, ha'⟩)
  · exact Or.inr (Or.inr h)

theorem uniqueModule_nodesFilter (m : AddonModule) (P : BlueprintNode → Bool)
    (h : UniqueModule m) : UniqueModule { m with nodes := m.nodes.filter P } := by
  obtain ⟨u1, u2, u3⟩ := h
  refine ⟨?_, u2, ?_⟩
  · exact List.Nodup.sublist (List.Sublist.map _ (List.filter_sublist _)) u1
  · intro n hn
    exact u3 n (List.mem_of_mem_filter hn)

theorem uniqueModule_nodesMap (m : AddonModule) (G : BlueprintNode → BlueprintNode)
    (hid : ∀ n ∈ m.nodes, (G n).id = n.id)
    (hun : ∀ n ∈ m.nodes, UniqueNode n → UniqueNode (G n))
    (h : UniqueModule m) : UniqueModule { m with nodes := m.nodes.map G } := by
  obtain ⟨u1, u2, u3⟩ := h
  refine ⟨?_, u2, ?_⟩
  · rw [List.map_map]
    have he : m.nodes.map ((fun n => n.id) ∘ G) = m.nodes.map (fun n => n.id) :=
      List.map_congr_left (fun n hn => hid n hn)
    rw [he]
    exact u1
  · intro n hn
    obtain ⟨n0, hn0, rfl⟩ := List.mem_map.mp hn
    exact hun n0 hn0 (u3 n0 hn0)

theorem moduleIdsAll_nodesMap_sub (m : AddonModule) (G : BlueprintNode → BlueprintNode)
    (hsub : ∀ n ∈ m.nodes, ∀ a ∈ nodeIdsAll (G n), a ∈ nodeIdsAll n) :
    ∀ a ∈ moduleIdsAll { m with nodes := m.nodes.map G }, a ∈ moduleIdsAll m := by
  apply moduleIdsAll_nodes_sub
  intro a ⟨n', hn', ha'⟩
  obtain ⟨n, hn, rfl⟩ := List.mem_map.mp hn'
  exact ⟨n, hn, hsub n hn a ha'⟩

theorem moduleIdsAll_commandsMap (m : AddonModule) (H : CommandBinding → CommandBinding)
    (hid : ∀ c ∈ m.commands, (H c).id = c.id) :
    moduleIdsAll { m with commands := m.commands.map H } = moduleIdsAll m := by
  simp only [moduleIdsAll, List.map_map]
  have he : m.commands.map ((fun c => c.id) ∘ H) = m.commands.map (fun c => c.id) :=
    List.map_congr_left (fun c hc => hid c hc)
  rw [he]

theorem uniqueModule_commandsMap (m : AddonModule) (H : CommandBinding → CommandBinding)
    (hid : ∀ c ∈ m.commands, (H c).id = c.id)
    (h : UniqueModule m) : UniqueModule { m with commands := m.commands.map H } := by
  obtain ⟨u1, u2, u3⟩ := h
  refine ⟨u1, ?_, u3⟩
  rw [List.map_map]
  have he : m.commands.map ((fun c => c.id) ∘ H) = m.commands.map (fun c => c.id) :=
    List.map_congr_left (fun c hc => hid c hc)
  rw [he]
  exact u2

theorem moduleIdsAll_commandsFilter_sub (m : AddonModule) (P : CommandBinding → Bool) :
    ∀ a ∈ moduleIdsAll { m with commands := m.commands.filter P }, a ∈ moduleIdsAll m := by
  intro a ha
  simp only [moduleIdsAll, List.mem_cons, List.mem_append, List.mem_map] at ha ⊢
  rcases ha with h | h | h
  · exact Or.inl h
  · exact Or.inr (Or.inl h)
  · obtain ⟨c, hc, rfl⟩ := h
    exact Or.inr (Or.inr ⟨c, List.mem_of_mem_filter hc, rfl⟩)

theorem uniqueModule_commandsFilter (m : AddonModule) (P : CommandBinding → Bool)
    (h : UniqueModule m) : UniqueModule { m with commands := m.commands.filter P } := by
  obtain ⟨u1, u2, u3⟩ := h
  exact ⟨u1, List.Nodup.sublist (List.Sublist.map _ (List.filter_sublist _)) u2, u3⟩

theorem nodeIdsAll_withPlacement_sub (n : BlueprintNode) (pl : Placement)
    (ps : List BlueprintParameter) (hsub : ∀ p ∈ ps, p ∈ n.placementList pl) :
    ∀ a ∈ nodeIdsAll (n.withPlacement pl ps), a ∈ nodeIdsAll n := by
  intro a ha
  cases pl <;>
    simp only [BlueprintNode.withPlacement, BlueprintNode.placementList, nodeIdsAll,
      List.mem_cons, List.mem_append, List.mem_map] at ha hsub ⊢
  · rcases ha with h | h | h
    · exact Or.inl h
    · obtain ⟨p, hp, rfl⟩ := h
      exact Or.inr (Or.inl ⟨p, hsub p hp, rfl⟩)
    · exact Or.inr (Or.inr h)
  · rcases ha with h | h | h
    · exact Or.inl h
    · exact Or.inr (Or.inl h)
    · obtain ⟨p, hp, rfl⟩ := h
      exact Or.inr (Or.inr ⟨p, hsub p hp, rfl⟩)

theorem uniqueNode_withPlacement_filter (n : BlueprintNode) (pl : Placement)
    (P : BlueprintParameter → Bool) (h : UniqueNode n) :
    UniqueNode (n.withPlacement pl ((n.placementList pl).filter P)) := by
  obtain ⟨u1, u2⟩ := h
  cases pl <;>
    exact ⟨by first
      | exact List.Nodup.sublist (List.Sublist.map _ (List.filter_sublist _)) u1
      | exact u1,
      by first
      | exact List.Nodup.sublist (List.Sublist.map _ (List.filter_sublist _)) u2
      | exact u2⟩

theorem uniqueNode_withPlacement_map (n : BlueprintNode) (pl : Placement)
    (K : BlueprintParameter → BlueprintParameter)
    (hid : ∀ p ∈ n.placementList pl, (K p).id = p.id) (h : UniqueNode n) :
    UniqueNode (n.withPlacement pl ((n.placementList pl).map K)) := by
  obtain ⟨u1, u2⟩ := h
  have he : (n.placementList pl).map ((fun p => p.id) ∘ K) =
      (n.placementList pl).map (fun p => p.id) :=
    List.map_congr_left (fun p hp => hid p hp)
  cases pl <;> constructor <;>
    simp only [BlueprintNode.withPlacement, BlueprintNode.placementList, List.map_map] at he ⊢ <;>
    first
      | (rw [he]; assumption)
      | assumption

theorem nodeIdsAll_withPlacement_map (n : BlueprintNode) (pl : Placement)
    (K : BlueprintParameter → BlueprintParameter)
    (hid : ∀ p ∈ n.placementList pl, (K p).id = p.id) :
    nodeIdsAll (n.withPlacement pl ((n.placementList pl).map K)) = nodeIdsAll n := by
  have he : (n.placementList pl).map ((fun p => p.id) ∘ K) =
      (n.placementList pl).map (fun p => p.id) :=
    List.map_congr_left (fun p hp => hid p hp)
  cases pl <;>
    simp only [BlueprintNode.withPlacement, BlueprintNode.placementList, nodeIdsAll,
      List.map_map] at he ⊢ <;>
    rw [he]

/-! ### Facts about the entity constructors -/

theorem createNode_le (g : Nat) : g ≤ (createNode g).2 := by
  show g ≤ g + 1 + 1 + 1
  omega

theorem createNode_id (g : Nat) : (createNode g).1.id = g := rfl

theorem createNode_window (g : Nat) :
    ∀ a ∈ nodeIdsAll (createNode g).1, g ≤ a ∧ a < (createNode g).2 := by
  intro a ha
  have he : nodeIdsAll (createNode g).1 = [g, g + 1, g + 1 + 1] := rfl
  rw [he] at ha
  show g ≤ a ∧ a < g + 1 + 1 + 1
  simp only [List.mem_cons, List.not_mem_nil, or_false] at ha
  rcases ha with rfl | rfl | rfl <;> omega

theorem createNode_unique (g : Nat) : UniqueNode (createNode g).1 := by
  constructor <;> simp [createNode, createParameter]

theorem createModule_le (g : Nat) : g ≤ (createModule g).2 := by
  show g ≤ g + 1 + 1 + 1 + 1 + 1
  omega

theorem createModule_id (g : Nat) : (createModule g).1.id = g := rfl

theorem createModule_window (g : Nat) :
    ∀ a ∈ moduleIdsAll (createModule g).1, g ≤ a ∧ a < (createModule g).2 := by
  intro a ha
  have he : moduleIdsAll (createModule g).1 =
      g :: (([g + 1, g + 1 + 1, g + 1 + 1 + 1] ++ []) ++ [g + 1 + 1 + 1 + 1]) := rfl
  rw [he] at ha
  show g ≤ a ∧ a < g + 1 + 1 + 1 + 1 + 1
  simp only [List.append_nil, List.mem_cons, List.mem_append, List.not_mem_nil,
    or_false, List.mem_singleton] at ha
  rcases ha with rfl | (rfl | rfl | rfl) | rfl <;> omega

theorem createModule_unique (g : Nat) : UniqueModule (createModule g).1 := by
  refine ⟨?_, ?_, ?_⟩ <;> simp [createModule, createNode, createParameter, UniqueNode]

/-! ### Append lemmas -/

theorem moduleIdsAll_nodesAppend (m : AddonModule) (node : BlueprintNode) :
    ∀ a ∈ moduleIdsAll { m with nodes := m.nodes ++ [node] },
      a ∈ moduleIdsAll m ∨ a ∈ nodeIdsAll node := by
  intro a ha
  simp only [moduleIdsAll, List.mem_cons, List.map_append, List.flatten_append,
    List.mem_append, List.mem_flatten, List.mem_map, List.map_cons, List.map_nil,
    List.flatten_cons, List.flatten_nil, List.append_nil] at ha ⊢
  rcases ha with h | (h | h) | h
  · exact Or.inl (Or.inl h)
  · obtain ⟨l, ⟨n, hn, rfl⟩, hal⟩ := h
    exact Or.inl (Or.inr (Or.inl ⟨nodeIdsAll n, ⟨n, hn, rfl⟩, hal⟩))
  · exact Or.inr h
  · exact Or.inl (Or.inr (Or.inr h))

theorem moduleIdsAll_commandsAppend (m : AddonModule) (c : CommandBinding) :
    ∀ a ∈ moduleIdsAll { m with commands := m.commands ++ [c] },
      a ∈ moduleIdsAll m ∨ a = c.id := by
  intro a ha
  simp only [moduleIdsAll, List.mem_cons, List.map_append, List.mem_append,
    List.mem_flatten, List.mem_map, List.map_cons, List.map_nil,
    List.mem_singleton] at ha ⊢
  rcases ha with h | h | (h | (h | h))
  · exact Or.inl (Or.inl h)
  · exact Or.inl (Or.inr (Or.inl h))
  · exact Or.inl (Or.inr (Or.inr h))
  · exact Or.inr h
  · cases h

theorem nodup_append_singleton {a : Nat} {l : List Nat} (h : l.Nodup) (ha : a ∉ l) :
    (l ++ [a]).Nodup := by
  rw [List.nodup_append]
  exact ⟨h, List.nodup_singleton a, fun x hx hxa => ha ((List.mem_singleton.mp hxa) ▸ hx)⟩

theorem uniqueModule_nodesAppend (m : AddonModule) (node : BlueprintNode) (g0 : Nat)
    (hold : ∀ a ∈ moduleIdsAll m, a < g0)
    (hnew : ∀ a ∈ nodeIdsAll node, g0 ≤ a) (hun : UniqueNode node)
    (h : UniqueModule m) : UniqueModule { m with nodes := m.nodes ++ [node] } := by
  obtain ⟨u1, u2, u3⟩ := h
  refine ⟨?_, u2, ?_⟩
  · rw [List.map_append]
    apply nodup_append_singleton u1
    intro hmem
    simp only [List.mem_map] at hmem
    obtain ⟨n, hn, hid⟩ := hmem
    have h1 : node.id < g0 :=
      hid ▸ hold n.id (nodeIdsAll_sub_module m n hn n.id (List.mem_cons_self _ _))
    have h2 := hnew node.id (List.mem_cons_self _ _)
    omega
  · intro n hn
    rcases List.mem_append.mp hn with hn | hn
    · exact u3 n hn
    · rw [List.mem_singleton.mp hn]
      exact hun

theorem uniqueModule_commandsAppend (m : AddonModule) (c : CommandBinding) (g0 : Nat)
    (hold : ∀ a ∈ moduleIdsAll m, a < g0) (hnew : g0 ≤ c.id)
    (h : UniqueModule m) : UniqueModule { m with commands := m.commands ++ [c] } := by
  obtain ⟨u1, u2, u3⟩ := h
  refine ⟨u1, ?_, u3⟩
  rw [List.map_append]
  apply nodup_append_singleton u2
  intro hmem
  simp only [List.mem_map] at hmem
  obtain ⟨c0, hc0, hid⟩ := hmem
  have h1 : c.id < g0 := hid ▸ hold c0.id (commandId_sub_module m c0 hc0)
  omega

/-! ### Reduced forms of the creating operations -/

theorem addModule_eq (s : Store) :
    addModule s =
      { st := { s.st with
          modules := s.st.modules ++ [(createModule s.gen).1]
        , selectedModuleId := some (createModule s.gen).1.id
        , selectedNodeId := ((createModule s.gen).1.nodes.head?).map (fun n => n.id) }
      , gen := (createModule s.gen).2 } := rfl

theorem addNode_eq (i : Nat) (s : Store) :
    addNode i s =
      { st := { s.st with
          modules := s.st.modules.map (fun m =>
            if m.id == i then { m with nodes := m.nodes ++ [(createNode s.gen).1] } else m)
        , selectedModuleId := some i
        , selectedNodeId := some (createNode s.gen).1.id }
      , gen := (createNode s.gen).2 } := rfl

theorem cloneModule_some (i : Nat) (s : Store) (ex : AddonModule)
    (hf : s.st.modules.find? (fun m => m.id == i) = some ex) :
    cloneModule i s =
      { st := { s.st with
          modules := s.st.modules ++ [(cloneModuleFn ex s.gen).1]
        , selectedModuleId := some (cloneModuleFn ex s.gen).1.id
        , selectedNodeId := ((cloneModuleFn ex s.gen).1.nodes.head?).map (fun n => n.id) }
      , gen := (cloneModuleFn ex s.gen).2 } := by
  unfold cloneModule
  rw [hf]

/-! ### Invariant preservation, operation by operation -/

theorem inv_updateMeta (p : MetaPatch) (s : Store) (h : Inv s) : Inv (updateMeta p s) :=
  inv_same s _ rfl rfl h

theorem inv_selectModule (i : Option Nat) (s : Store) (h : Inv s) : Inv (selectModule i s) :=
  inv_same s _ rfl rfl h

theorem inv_selectNode (i : Option Nat) (s : Store) (h : Inv s) : Inv (selectNode i s) :=
  inv_same s _ rfl rfl h

theorem inv_reset (s : Store) (h : Inv s) : Inv (reset s) := by
  obtain ⟨_, _, h3⟩ := h
  have hfr : ∀ a ∈ stateIds defaultState, a < defaultBuild.2 := by decide
  have hun : UniqueState defaultState := by decide
  exact ⟨fun a ha => lt_of_lt_of_le (hfr a ha) h3, hun, h3⟩

theorem inv_removeModule (i : Nat) (s : Store) (h : Inv s) : Inv (removeModule i s) := by
  obtain ⟨h1, h2, h3⟩ := h
  refine ⟨?_, ⟨?_, ?_⟩, h3⟩
  · intro a ha
    rw [stateIds_mem] at ha
    obtain ⟨m, hm, ha⟩ := ha
    exact h1 a ((stateIds_mem _ _).mpr ⟨m, List.mem_of_mem_filter hm, ha⟩)
  · exact List.Nodup.sublist (List.Sublist.map _ (List.filter_sublist _)) h2.1
  · intro m hm
    exact h2.2 m (List.mem_of_mem_filter hm)

theorem inv_addModule (s : Store) (h : Inv s) : Inv (addModule s) := by
  obtain ⟨h1, h2, h3⟩ := h
  have hle := createModule_le s.gen
  have hw := createModule_window s.gen
  rw [addModule_eq]
  refine ⟨?_, ⟨?_, ?_⟩, le_trans h3 hle⟩
  · intro a ha
    rw [stateIds_mem] at ha
    obtain ⟨m, hm, ha⟩ := ha
    rcases List.mem_append.mp hm with hm | hm
    · exact lt_of_lt_of_le (h1 a ((stateIds_mem _ _).mpr ⟨m, hm, ha⟩)) hle
    · rw [List.mem_singleton.mp hm] at ha
      exact (hw a ha).2
  · rw [List.map_append]
    apply nodup_append_singleton h2.1
    intro hmem
    simp only [List.mem_map] at hmem
    obtain ⟨m, hm, hid⟩ := hmem
    have ha : (createModule s.gen).1.id < s.gen :=
      hid ▸ fresh_module s h1 m hm m.id (mem_moduleIdsAll_self m)
    have hb := (hw _ (mem_moduleIdsAll_self _)).1
    omega
  · intro m hm
    rcases List.mem_append.mp hm with hm | hm
    · exact h2.2 m hm
    · rw [List.mem_singleton.mp hm]
      exact createModule_unique s.gen

theorem inv_cloneModule (i : Nat) (s : Store) (h : Inv s) : Inv (cloneModule i s) := by
  cases hf : s.st.modules.find? (fun m => m.id == i) with
  | none =>
    have : cloneModule i s = s := by unfold cloneModule; rw [hf]
    rw [this]; exact h
  | some ex =>
    obtain ⟨h1, h2, h3⟩ := h
    have hle := cloneModuleFn_le ex s.gen
    have hw := cloneModuleFn_ids ex s.gen
    rw [cloneModule_some i s ex hf]
    refine ⟨?_, ⟨?_, ?_⟩, le_trans h3 hle⟩
    · intro a ha
      rw [stateIds_mem] at ha
      obtain ⟨m, hm, ha⟩ := ha
      rcases List.mem_append.mp hm with hm | hm
      · exact lt_of_lt_of_le (h1 a ((stateIds_mem _ _).mpr ⟨m, hm, ha⟩)) hle
      · rw [List.mem_singleton.mp hm] at ha
        exact (hw a ha).2
    · rw [List.map_append]
      apply nodup_append_singleton h2.1
      intro hmem
      simp only [List.mem_map] at hmem
      obtain ⟨m, hm, hid⟩ := hmem
      have ha : (cloneModuleFn ex s.gen).1.id < s.gen :=
        hid ▸ fresh_module s h1 m hm m.id (mem_moduleIdsAll_self m)
      have hb := (hw _ (mem_moduleIdsAll_self _)).1
      omega
    · intro m hm
      rcases List.mem_append.mp hm with hm | hm
      · exact h2.2 m hm
      · rw [List.mem_singleton.mp hm]
        exact cloneModuleFn_unique ex s.gen

theorem inv_updateModule (i : Nat) (p : ModulePatch) (hp : p.KeepsIds) (s : Store)
    (h : Inv s) : Inv (updateModule i p s) := by
  obtain ⟨h1, h2, h3⟩ := h
  refine ⟨?_, ?_, h3⟩
  · refine fresh_map s _ s.gen (le_refl _) ?_ h1
    intro m _ a ha
    left
    by_cases hc : (m.id == i) = true
    · rw [if_pos hc, moduleIdsAll_applyModulePatch p hp m] at ha
      exact ha
    · rw [if_neg hc] at ha
      exact ha
  · refine unique_map s.st _ ?_ ?_ h2
    · intro m _
      by_cases hc : (m.id == i) = true
      · rw [if_pos hc]
        exact (applyModulePatch_keeps p hp m).1
      · rw [if_neg hc]
    · intro m _ hu
      by_cases hc : (m.id == i) = true
      · rw [if_pos hc]
        exact uniqueModule_applyModulePatch p hp m hu
      · rw [if_neg hc]
        exact hu

theorem inv_addNode (i : Nat) (s : Store) (h : Inv s) : Inv (addNode i s) := by
  obtain ⟨h1, h2, h3⟩ := h
  have hle := createNode_le s.gen
  have hw := createNode_window s.gen
  rw [addNode_eq]
  refine ⟨?_, ?_, le_trans h3 hle⟩
  · refine fresh_map s _ (createNode s.gen).2 hle ?_ h1
    intro m _ a ha
    by_cases hc : (m.id == i) = true
    · rw [if_pos hc] at ha
      rcases moduleIdsAll_nodesAppend m (createNode s.gen).1 a ha with hol | hnw
      · exact Or.inl hol
      · exact Or.inr (hw a hnw).2
    · rw [if_neg hc] at ha
      exact Or.inl ha
  · refine unique_map s.st _ ?_ ?_ h2
    · intro m _
      by_cases hc : (m.id == i) = true
      · rw [if_pos hc]
      · rw [if_neg hc]
    · intro m hm hu
      by_cases hc : (m.id == i) = true
      · rw [if_pos hc]
        exact uniqueModule_nodesAppend m (createNode s.gen).1 s.gen
          (fresh_module s h1 m hm) (fun a ha => (hw a ha).1) (createNode_unique s.gen) hu
      · rw [if_neg hc]
        exact hu

theorem inv_updateNode (mi ni : Nat) (p : NodePatch) (hp : p.KeepsIds) (s : Store)
    (h : Inv s) : Inv (updateNode mi ni p s) := by
  obtain ⟨h1, h2, h3⟩ := h
  have hGid : ∀ n : BlueprintNode,
      (if n.id == ni then applyNodePatch p n else n).id = n.id := by
    intro n
    by_cases hc : (n.id == ni) = true
    · rw [if_pos hc]; exact (applyNodePatch_keeps p hp n).1
    · rw [if_neg hc]
  have hGids : ∀ n : BlueprintNode,
      nodeIdsAll (if n.id == ni then applyNodePatch p n else n) = nodeIdsAll n := by
    intro n
    by_cases hc : (n.id == ni) = true
    · rw [if_pos hc]; exact nodeIdsAll_applyNodePatch p hp n
    · rw [if_neg hc]
  have hGun : ∀ n : BlueprintNode,
      UniqueNode n → UniqueNode (if n.id == ni then applyNodePatch p n else n) := by
    intro n hn
    by_cases hc : (n.id == ni) = true
    · rw [if_pos hc]; exact uniqueNode_applyNodePatch p hp n hn
    · rw [if_neg hc]; exact hn
  refine ⟨?_, ?_, h3⟩
  · refine fresh_map s _ s.gen (le_refl _) ?_ h1
    intro m _ a ha
    left
    by_cases hc : (m.id == mi) = true
    · rw [if_pos hc] at ha
      exact moduleIdsAll_nodesMap_sub m _ (fun n _ a ha => (hGids n) ▸ ha) a ha
    · rw [if_neg hc] at ha
      exact ha
  · refine unique_map s.st _ ?_ ?_ h2
    · intro m _
      by_cases hc : (m.id == mi) = true
      · rw [if_pos hc]
      · rw [if_neg hc]
    · intro m _ hu
      by_cases hc : (m.id == mi) = true
      · rw [if_pos hc]
        exact uniqueModule_nodesMap m _ (fun n _ => hGid n) (fun n _ => hGun n) hu
      · rw [if_neg hc]
        exact hu

theorem inv_removeNode (mi ni : Nat) (s : Store) (h : Inv s) : Inv (removeNode mi ni s) := by
  obtain ⟨h1, h2, h3⟩ := h
  refine ⟨?_, ?_, h3⟩
  · refine fresh_map s _ s.gen (le_refl _) ?_ h1
    intro m _ a ha
    left
    by_cases hc : (m.id == mi) = true
    · rw [if_pos hc] at ha
      refine moduleIdsAll_nodes_sub m _ ?_ a ha
      rintro b ⟨n, hn, hb⟩
      exact ⟨n, List.mem_of_mem_filter hn, hb⟩
    · rw [if_neg hc] at ha
      exact ha
  · refine unique_map s.st _ ?_ ?_ h2
    · intro m _
      by_cases hc : (m.id == mi) = true
      · rw [if_pos hc]
      · rw [if_neg hc]
    · intro m _ hu
      by_cases hc : (m.id == mi) = true
      · rw [if_pos hc]
        exact uniqueModule_nodesFilter m _ hu
      · rw [if_neg hc]
        exact hu

theorem inv_updateParameter (mi ni : Nat) (pl : Placement) (pid : Nat) (pp : ParamPatch)
    (hp : pp.id = none) (s : Store) (h : Inv s) : Inv (updateParameter mi ni pl pid pp s) := by
  obtain ⟨h1, h2, h3⟩ := h
  have hKid : ∀ q : BlueprintParameter,
      (if q.id == pid then applyParamPatch pp q else q).id = q.id := by
    intro q
    by_cases hc : (q.id == pid) = true
    · rw [if_pos hc]; exact applyParamPatch_id pp hp q
    · rw [if_neg hc]
  have hGids : ∀ n : BlueprintNode,
      nodeIdsAll (if n.id == ni then
        n.withPlacement pl ((n.placementList pl).map (fun q =>
          if q.id == pid then applyParamPatch pp q else q)) else n) = nodeIdsAll n := by
    intro n
    by_cases hc : (n.id == ni) = true
    · rw [if_pos hc]
      exact nodeIdsAll_withPlacement_map n pl _ (fun q _ => hKid q)
    · rw [if_neg hc]
  have hGid : ∀ n : BlueprintNode,
      (if n.id == ni then
        n.withPlacement pl ((n.placementList pl).map (fun q =>
          if q.id == pid then applyParamPatch pp q else q)) else n).id = n.id := by
    intro n
    have := hGids n
    have h0 := congrArg (fun l => l.head?) this
    simpa [nodeIdsAll] using h0
  have hGun : ∀ n : BlueprintNode, UniqueNode n →
      UniqueNode (if n.id == ni then
        n.withPlacement pl ((n.placementList pl).map (fun q =>
          if q.id == pid then applyParamPatch pp q else q)) else n) := by
    intro n hn
    by_cases hc : (n.id == ni) = true
    · rw [if_pos hc]
      exact uniqueNode_withPlacement_map n pl _ (fun q _ => hKid q) hn
    · rw [if_neg hc]; exact hn
  refine ⟨?_, ?_, h3⟩
  · refine fresh_map s _ s.gen (le_refl _) ?_ h1
    intro m _ a ha
    left
    by_cases hc : (m.id == mi) = true
    · rw [if_pos hc] at ha
      exact moduleIdsAll_nodesMap_sub m _ (fun n _ a ha => (hGids n) ▸ ha) a ha
    · rw [if_neg hc] at ha
      exact ha
  · refine unique_map s.st _ ?_ ?_ h2
    · intro m _
      by_cases hc : (m.id == mi) = true
      · rw [if_pos hc]
      · rw [if_neg hc]
    · intro m _ hu
      by_cases hc : (m.id == mi) = true
      · rw [if_pos hc]
        exact uniqueModule_nodesMap m _ (fun n _ => hGid n) (fun n _ => hGun n) hu
      · rw [if_neg hc]
        exact hu

theorem inv_removeParameter (mi ni : Nat) (pl : Placement) (pid : Nat) (s : Store)
    (h : Inv s) : Inv (removeParameter mi ni pl pid s) := by
  obtain ⟨h1, h2, h3⟩ := h
  have hGids : ∀ n : BlueprintNode, ∀ a,
      a ∈ nodeIdsAll (if n.id == ni then
        n.withPlacement pl ((n.placementList pl).filter (fun q => q.id != pid)) else n) →
      a ∈ nodeIdsAll n := by
    intro n a ha
    by_cases hc : (n.id == ni) = true
    · rw [if_pos hc] at ha
      exact nodeIdsAll_withPlacement_sub n pl _
        (fun q hq => List.mem_of_mem_filter hq) a ha
    · rw [if_neg hc] at ha
      exact ha
  have hGid : ∀ n : BlueprintNode,
      (if n.id == ni then
        n.withPlacement pl ((n.placementList pl).filter (fun q => q.id != pid)) else n).id =
        n.id := by
    intro n
    by_cases hc : (n.id == ni) = true
    · rw [if_pos hc]
      cases pl <;> rfl
    · rw [if_neg hc]
  have hGun : ∀ n : BlueprintNode, UniqueNode n →
      UniqueNode (if n.id == ni then
        n.withPlacement pl ((n.placementList pl).filter (fun q => q.id != pid)) else n) := by
    intro n hn
    by_cases hc : (n.id == ni) = true
    · rw [if_pos hc]
      exact uniqueNode_withPlacement_filter n pl _ hn
    · rw [if_neg hc]; exact hn
  refine ⟨?_, ?_, h3⟩
  · refine fresh_map s _ s.gen (le_refl _) ?_ h1
    intro m _ a ha
    left
    by_cases hc : (m.id == mi) = true
    · rw [if_pos hc] at ha
      exact moduleIdsAll_nodesMap_sub m _ (fun n _ a ha => hGids n a ha) a ha
    · rw [if_neg hc] at ha
      exact ha
  · refine unique_map s.st _ ?_ ?_ h2
    · intro m _
      by_cases hc : (m.id == mi) = true
      · rw [if_pos hc]
      · rw [if_neg hc]
    · intro m _ hu
      by_cases hc : (m.id == mi) = true
      · rw [if_pos hc]
        exact uniqueModule_nodesMap m _ (fun n _ => hGid n) (fun n _ => hGun n) hu
      · rw [if_neg hc]
        exact hu

theorem inv_updateCommand (mi ci : Nat) (p : CommandPatch) (hp : p.id = none) (s : Store)
    (h : Inv s) : Inv (updateCommand mi ci p s) := by
  obtain ⟨h1, h2, h3⟩ := h
  have hHid : ∀ c : CommandBinding,
      (if c.id == ci then applyCommandPatch p c else c).id = c.id := by
    intro c
    by_cases hc : (c.id == ci) = true
    · rw [if_pos hc]; exact applyCommandPatch_id p hp c
    · rw [if_neg hc]
  refine ⟨?_, ?_, h3⟩
  · refine fresh_map s _ s.gen (le_refl _) ?_ h1
    intro m _ a ha
    left
    by_cases hc : (m.id == mi) = true
    · rw [if_pos hc, moduleIdsAll_commandsMap m _ (fun c _ => hHid c)] at ha
      exact ha
    · rw [if_neg hc] at ha
      exact ha
  · refine unique_map s.st _ ?_ ?_ h2
    · intro m _
      by_cases hc : (m.id == mi) = true
      · rw [if_pos hc]
      · rw [if_neg hc]
    · intro m _ hu
      by_cases hc : (m.id == mi) = true
      · rw [if_pos hc]
        exact uniqueModule_commandsMap m _ (fun c _ => hHid c) hu
      · rw [if_neg hc]
        exact hu

theorem inv_removeCommand (mi ci : Nat) (s : Store) (h : Inv s) :
    Inv (removeCommand mi ci s) := by
  obtain ⟨h1, h2, h3⟩ := h
  refine ⟨?_, ?_, h3⟩
  · refine fresh_map s _ s.gen (le_refl _) ?_ h1
    intro m _ a ha
    left
    by_cases hc : (m.id == mi) = true
    · rw [if_pos hc] at ha
      exact moduleIdsAll_commandsFilter_sub m _ a ha
    · rw [if_neg hc] at ha
      exact ha
  · refine unique_map s.st _ ?_ ?_ h2
    · intro m _
      by_cases hc : (m.id == mi) = true
      · rw [if_pos hc]
      · rw [if_neg hc]
    · intro m _ hu
      by_cases hc : (m.id == mi) = true
      · rw [if_pos hc]
        exact uniqueModule_commandsFilter m _ hu
      · rw [if_neg hc]
        exact hu

/-! ### `addCommand` and `addParameter` (counter-threaded) -/

theorem addCommandToModule_le (mi : Nat) (m : AddonModule) (g : Nat) :
    g ≤ (addCommandToModule mi m g).2 := by
  unfold addCommandToModule
  by_cases hc : (m.id == mi) = true
  · rw [if_pos hc]; exact Nat.le_succ g
  · rw [if_neg hc]

theorem addCommandToModule_id (mi : Nat) (m : AddonModule) (g : Nat) :
    ((addCommandToModule mi m g).1).id = m.id := by
  unfold addCommandToModule
  by_cases hc : (m.id == mi) = true
  · rw [if_pos hc]
  · rw [if_neg hc]

theorem addCommandToModule_ids (mi : Nat) (m : AddonModule) (g : Nat) :
    ∀ a ∈ moduleIdsAll (addCommandToModule mi m g).1,
      a ∈ moduleIdsAll m ∨ (g ≤ a ∧ a < (addCommandToModule mi m g).2) := by
  intro a ha
  unfold addCommandToModule at ha ⊢
  by_cases hc : (m.id == mi) = true
  · rw [if_pos hc] at ha ⊢
    rcases moduleIdsAll_commandsAppend m (newCommandBinding g) a ha with h | h
    · exact Or.inl h
    · have : a = g := h
      omega
  · rw [if_neg hc] at ha
    exact Or.inl ha

theorem inv_addCommand (mi : Nat) (s : Store) (h : Inv s) : Inv (addCommand mi s) := by
  obtain ⟨h1, h2, h3⟩ := h
  refine ⟨?_, ?_, ?_⟩
  · exact fresh_mapGen s _ (addCommandToModule_le mi) (addCommandToModule_ids mi) h1
  · refine unique_mapGen s _ (addCommandToModule_le mi) (addCommandToModule_id mi) ?_ h2
    intro m hm g hg
    unfold addCommandToModule
    by_cases hc : (m.id == mi) = true
    · rw [if_pos hc]
      refine uniqueModule_commandsAppend m (newCommandBinding g) s.gen
        (fresh_module s h1 m hm) hg (h2.2 m hm)
    · rw [if_neg hc]
      exact h2.2 m hm
  · exact le_trans h3
      (mapGen_snd_ge _ (addCommandToModule_le mi) s.st.modules s.gen)

theorem nodeIdsAll_withPlacement_append (n : BlueprintNode) (pl : Placement)
    (p : BlueprintParameter) :
    ∀ a ∈ nodeIdsAll (n.withPlacement pl (n.placementList pl ++ [p])),
      a ∈ nodeIdsAll n ∨ a = p.id := by
  intro a ha
  cases pl <;>
    simp only [BlueprintNode.withPlacement, BlueprintNode.placementList, nodeIdsAll,
      List.mem_cons, List.map_append, List.mem_append, List.mem_map, List.map_cons,
      List.map_nil, List.mem_singleton, List.not_mem_nil, or_false] at ha ⊢
  · rcases ha with h | (h | h) | h
    · exact Or.inl (Or.inl h)
    · exact Or.inl (Or.inr (Or.inl h))
    · exact Or.inr h
    · exact Or.inl (Or.inr (Or.inr h))
  · rcases ha with h | h | (h | h)
    · exact Or.inl (Or.inl h)
    · exact Or.inl (Or.inr (Or.inl h))
    · exact Or.inl (Or.inr (Or.inr h))
    · exact Or.inr h

theorem uniqueNode_withPlacement_append (n : BlueprintNode) (pl : Placement)
    (p : BlueprintParameter)
    (hnm : p.id ∉ (n.placementList pl).map (fun q => q.id))
    (h : UniqueNode n) :
    UniqueNode (n.withPlacement pl (n.placementList pl ++ [p])) := by
  obtain ⟨u1, u2⟩ := h
  cases pl
  · constructor
    · simp only [BlueprintNode.withPlacement]
      rw [List.map_append]
      exact nodup_append_singleton u1 (by simpa [BlueprintNode.placementList] using hnm)
    · simp only [BlueprintNode.withPlacement]
      exact u2
  · constructor
    · simp only [BlueprintNode.withPlacement]
      exact u1
    · simp only [BlueprintNode.withPlacement]
      rw [List.map_append]
      exact nodup_append_singleton u2 (by simpa [BlueprintNode.placementList] using hnm)

theorem addParamToNode_pos (pl : Placement) (ni : Nat) (n : BlueprintNode) (g : Nat)
    (hc : (n.id == ni) = true) :
    addParamToNode pl ni n g =
      (n.withPlacement pl (n.placementList pl ++ [(createParameter pl.defaultName g).1]),
        g + 1) := by
  unfold addParamToNode
  rw [if_pos hc]
  rfl

theorem addParamToNode_neg (pl : Placement) (ni : Nat) (n : BlueprintNode) (g : Nat)
    (hc : ¬ (n.id == ni) = true) :
    addParamToNode pl ni n g = (n, g) := by
  unfold addParamToNode
  rw [if_neg hc]

theorem addParamToNode_le (pl : Placement) (ni : Nat) (n : BlueprintNode) (g : Nat) :
    g ≤ (addParamToNode pl ni n g).2 := by
  by_cases hc : (n.id == ni) = true
  · rw [addParamToNode_pos pl ni n g hc]
    exact Nat.le_succ g
  · rw [addParamToNode_neg pl ni n g hc]

theorem addParamToNode_id (pl : Placement) (ni : Nat) (n : BlueprintNode) (g : Nat) :
    ((addParamToNode pl ni n g).1).id = n.id := by
  by_cases hc : (n.id == ni) = true
  · rw [addParamToNode_pos pl ni n g hc]
    cases pl <;> rfl
  · rw [addParamToNode_neg pl ni n g hc]

theorem addParamToNode_ids (pl : Placement) (ni : Nat) (n : BlueprintNode) (g : Nat) :
    ∀ a ∈ nodeIdsAll (addParamToNode pl ni n g).1,
      a ∈ nodeIdsAll n ∨ (g ≤ a ∧ a < (addParamToNode pl ni n g).2) := by
  intro a ha
  by_cases hc : (n.id == ni) = true
  · rw [addParamToNode_pos pl ni n g hc] at ha ⊢
    rcases nodeIdsAll_withPlacement_append n pl _ a ha with h | h
    · exact Or.inl h
    · have hag : a = g := h
      subst hag
      exact Or.inr ⟨le_refl a, Nat.lt_succ_self a⟩
  · rw [addParamToNode_neg pl ni n g hc] at ha
    exact Or.inl ha

theorem addParamToNode_unique (pl : Placement) (ni : Nat) (n : BlueprintNode)
    (g g0 : Nat) (hb : ∀ a ∈ nodeIdsAll n, a < g0) (hg : g0 ≤ g) (h : UniqueNode n) :
    UniqueNode (addParamToNode pl ni n g).1 := by
  by_cases hc : (n.id == ni) = true
  · rw [addParamToNode_pos pl ni n g hc]
    refine uniqueNode_withPlacement_append n pl _ ?_ h
    intro hmem
    simp only [List.mem_map] at hmem
    obtain ⟨q, hq, hid⟩ := hmem
    have hsub := paramId_sub_node n
    have hqlt : q.id < g0 := by
      cases pl
      · exact hb q.id (hsub.1 q hq)
      · exact hb q.id (hsub.2 q hq)
    rw [hid] at hqlt
    have : (createParameter pl.defaultName g).1.id = g := rfl
    omega
  · rw [addParamToNode_neg pl ni n g hc]
    exact h

theorem addParamToModule_pos (pl : Placement) (mi ni : Nat) (m : AddonModule) (g : Nat)
    (hc : (m.id == mi) = true) :
    addParamToModule pl mi ni m g =
      ({ m with nodes := (mapGen (addParamToNode pl ni) m.nodes g).1 },
        (mapGen (addParamToNode pl ni) m.nodes g).2) := by
  unfold addParamToModule
  rw [if_pos hc]

theorem addParamToModule_neg (pl : Placement) (mi ni : Nat) (m : AddonModule) (g : Nat)
    (hc : ¬ (m.id == mi) = true) :
    addParamToModule pl mi ni m g = (m, g) := by
  unfold addParamToModule
  rw [if_neg hc]

theorem addParamToModule_le (pl : Placement) (mi ni : Nat) (m : AddonModule) (g : Nat) :
    g ≤ (addParamToModule pl mi ni m g).2 := by
  by_cases hc : (m.id == mi) = true
  · rw [addParamToModule_pos pl mi ni m g hc]
    exact mapGen_snd_ge _ (addParamToNode_le pl ni) m.nodes g
  · rw [addParamToModule_neg pl mi ni m g hc]

theorem addParamToModule_id (pl : Placement) (mi ni : Nat) (m : AddonModule) (g : Nat) :
    ((addParamToModule pl mi ni m g).1).id = m.id := by
  by_cases hc : (m.id == mi) = true
  · rw [addParamToModule_pos pl mi ni m g hc]
  · rw [addParamToModule_neg pl mi ni m g hc]

theorem addParamToModule_ids (pl : Placement) (mi ni : Nat) (m : AddonModule) (g : Nat) :
    ∀ a ∈ moduleIdsAll (addParamToModule pl mi ni m g).1,
      a ∈ moduleIdsAll m ∨ (g ≤ a ∧ a < (addParamToModule pl mi ni m g).2) := by
  intro a ha
  by_cases hc : (m.id == mi) = true
  · rw [addParamToModule_pos pl mi ni m g hc] at ha ⊢
    simp only [moduleIdsAll, List.mem_cons, List.mem_append, List.mem_flatten,
      List.mem_map] at ha
    rcases ha with h | h | h
    · exact Or.inl (h ▸ mem_moduleIdsAll_self m)
    · obtain ⟨l, ⟨n', hn', rfl⟩, hal⟩ := h
      have hmem : a ∈ (((mapGen (addParamToNode pl ni) m.nodes g).1).map nodeIdsAll).flatten := by
        simp only [List.mem_flatten, List.mem_map]
        exact ⟨nodeIdsAll n', ⟨n', hn', rfl⟩, hal⟩
      rcases mapGen_ids_or_window _ nodeIdsAll (addParamToNode_ids pl ni)
          (addParamToNode_le pl ni) m.nodes g a hmem with h | h
      · left
        simp only [List.mem_flatten, List.mem_map] at h
        obtain ⟨l, ⟨n0, hn0, rfl⟩, hal0⟩ := h
        exact nodeIdsAll_sub_module m n0 hn0 a hal0
      · exact Or.inr h
    · obtain ⟨c, hc0, rfl⟩ := h
      exact Or.inl (commandId_sub_module m c hc0)
  · rw [addParamToModule_neg pl mi ni m g hc] at ha
    exact Or.inl ha

theorem addParamToModule_unique (pl : Placement) (mi ni : Nat) (m : AddonModule)
    (g g0 : Nat) (hb : ∀ a ∈ moduleIdsAll m, a < g0) (hg : g0 ≤ g)
    (h : UniqueModule m) : UniqueModule (addParamToModule pl mi ni m g).1 := by
  by_cases hc : (m.id == mi) = true
  · rw [addParamToModule_pos pl mi ni m g hc]
    obtain ⟨u1, u2, u3⟩ := h
    refine ⟨?_, u2, ?_⟩
    · have he := mapGen_map_proj (addParamToNode pl ni) (fun n => n.id)
        (fun n g => addParamToNode_id pl ni n g) m.nodes g
      rw [he]
      exact u1
    · intro n hn
      refine mapGen_mem_imp_ge (addParamToNode pl ni) g0 UniqueNode m.nodes
        (addParamToNode_le pl ni) ?_ g hg n hn
      intro n0 hn0 g' hg'
      exact addParamToNode_unique pl ni n0 g' g0
        (fun a ha => hb a (nodeIdsAll_sub_module m n0 hn0 a ha)) hg' (u3 n0 hn0)
  · rw [addParamToModule_neg pl mi ni m g hc]
    exact h

theorem inv_addParameter (mi ni : Nat) (pl : Placement) (s : Store) (h : Inv s) :
    Inv (addParameter mi ni pl s) := by
  obtain ⟨h1, h2, h3⟩ := h
  refine ⟨?_, ?_, ?_⟩
  · exact fresh_mapGen s _ (addParamToModule_le pl mi ni) (addParamToModule_ids pl mi ni) h1
  · refine unique_mapGen s _ (addParamToModule_le pl mi ni) (addParamToModule_id pl mi ni)
      ?_ h2
    intro m hm g hg
    exact addParamToModule_unique pl mi ni m g s.gen (fresh_module s h1 m hm) hg
      (h2.2 m hm)
  · exact le_trans h3
      (mapGen_snd_ge _ (addParamToModule_le pl mi ni) s.st.modules s.gen)

/-! ### The invariant along any id-safe run -/

theorem inv_applyOp (s : Store) (op : Op) (hop : op.IdSafe) (h : Inv s) :
    Inv (applyOp op s) := by
  cases op with
  | updateMeta p => exact inv_updateMeta p s h
  | selectModule i => exact inv_selectModule i s h
  | selectNode i => exact inv_selectNode i s h
  | addModule => exact inv_addModule s h
  | cloneModule i => exact inv_cloneModule i s h
  | updateModule i p => exact inv_updateModule i p hop s h
  | removeModule i => exact inv_removeModule i s h
  | addNode i => exact inv_addNode i s h
  | updateNode mi ni p => exact inv_updateNode mi ni p hop s h
  | removeNode mi ni => exact inv_removeNode mi ni s h
  | addParameter mi ni pl => exact inv_addParameter mi ni pl s h
  | updateParameter mi ni pl pid pp => exact inv_updateParameter mi ni pl pid pp hop s h
  | removeParameter mi ni pl pid => exact inv_removeParameter mi ni pl pid s h
  | addCommand mi => exact inv_addCommand mi s h
  | updateCommand mi ci p => exact inv_updateCommand mi ci p hop s h
  | removeCommand mi ci => exact inv_removeCommand mi ci s h
  | reset => exact inv_reset s h

theorem inv_init : Inv defaultStore := by
  refine ⟨?_, by decide, by decide⟩
  unfold Fresh
  decide

theorem reach_inv (s : Store) (h : ReachIdSafe s) : Inv s := by
  induction h with
  | init => exact inv_init
  | step s op _ hop ih => exact inv_applyOp s op hop ih

/-- C4 amended: in every model reachable from the default model by operations
whose update patches do not set id-bearing fields (`id` on any entity, a
module's `nodes`/`commands`, a node's `inputs`/`outputs`), every id is unique
within its containing collection: module ids in the model, node and command
ids within their module, parameter ids within their node's inputs and outputs
lists. -/
theorem reachable_unique_ids (s : Store) (h : ReachIdSafe s) : UniqueState s.st :=
  (reach_inv s h).2.1

/-- Witness for the amended C4 at the initial store. -/
theorem reachable_unique_ids_witness : UniqueState defaultStore.st :=
  reachable_unique_ids defaultStore ReachIdSafe.init

/-! ## The selection invariant and its preservation -/

theorem mem_of_head? {α : Type} {l : List α} {a : α} (h : l.head? = some a) : a ∈ l := by
  cases l with
  | nil => cases h
  | cons x xs =>
    rw [List.head?_cons] at h
    injection h with h
    rw [← h]
    exact List.mem_cons_self x xs

theorem selok_same (st st' : AddonState) (hm : st'.modules = st.modules)
    (hsm : st'.selectedModuleId = st.selectedModuleId)
    (hsn : st'.selectedNodeId = st.selectedNodeId) (h : SelOk st) : SelOk st' := by
  unfold SelOk at h ⊢
  rw [hsn, hm, hsm]
  exact h

theorem selok_map (st : AddonState) (F : AddonModule → AddonModule)
    (hid : ∀ m ∈ st.modules, (F m).id = m.id)
    (hn : ∀ m ∈ st.modules, ∀ nid, (∃ n ∈ m.nodes, n.id = nid) →
      ∃ n ∈ (F m).nodes, n.id = nid)
    (h : SelOk st) : SelOk { st with modules := st.modules.map F } := by
  unfold SelOk at h ⊢
  cases hsel : st.selectedNodeId with
  | none => simp [hsel]
  | some nid =>
    simp only [hsel] at h ⊢
    obtain ⟨m, hm, hselm, hex⟩ := h
    refine ⟨F m, List.mem_map_of_mem F hm, ?_, ?_⟩
    · rw [hid m hm]
      exact hselm
    · exact hn m hm nid hex

theorem selok_mapGen (st : AddonState) (f : AddonModule → Nat → AddonModule × Nat)
    (g : Nat)
    (hid : ∀ m g, ((f m g).1).id = m.id)
    (hn : ∀ m g nid, (∃ n ∈ m.nodes, n.id = nid) → ∃ n ∈ ((f m g).1).nodes, n.id = nid)
    (h : SelOk st) : SelOk { st with modules := (mapGen f st.modules g).1 } := by
  unfold SelOk at h ⊢
  cases hsel : st.selectedNodeId with
  | none => simp [hsel]
  | some nid =>
    simp only [hsel] at h ⊢
    obtain ⟨m, hm, hselm, hex⟩ := h
    obtain ⟨g', hg'⟩ := mapGen_mem_of_mem f st.modules m hm g
    refine ⟨(f m g').1, hg', ?_, ?_⟩
    · rw [hid m g']
      exact hselm
    · exact hn m g' nid hex

theorem selok_updateMeta (p : MetaPatch) (s : Store) (h : SelOk s.st) :
    SelOk (updateMeta p s).st :=
  selok_same s.st _ rfl rfl rfl h

theorem selok_selectModule (i : Option Nat) (s : Store) : SelOk (selectModule i s).st := by
  unfold selectModule SelOk
  cases i with
  | none => simp
  | some mid =>
    cases hf : s.st.modules.find? (fun m => m.id == mid) with
    | none => simp [hf]
    | some m =>
      cases hh : m.nodes.head? with
      | none => simp [hf, hh]
      | some n =>
        simp only [hf, hh, Option.some_bind', Option.map_some']
        refine ⟨m, List.mem_of_find?_eq_some hf, ?_, n, mem_of_head? hh, rfl⟩
        have hp := List.find?_some hf
        simp only [beq_iff_eq] at hp
        rw [hp]

theorem selok_selectNode_none (s : Store) : SelOk (selectNode none s).st := by
  unfold selectNode SelOk
  exact trivial

theorem selok_selectNode_some (s : Store) (nid : Nat)
    (hg : ∃ m ∈ s.st.modules, s.st.selectedModuleId = some m.id ∧
      ∃ n ∈ m.nodes, n.id = nid) :
    SelOk (selectNode (some nid) s).st := by
  unfold selectNode SelOk
  exact hg

theorem selok_addModule (s : Store) : SelOk (addModule s).st := by
  rw [addModule_eq]
  unfold SelOk
  cases hh : (createModule s.gen).1.nodes.head? with
  | none => simp [hh]
  | some n =>
    simp only [hh, Option.map_some']
    exact ⟨(createModule s.gen).1,
      List.mem_append_right _ (List.mem_singleton_self _), rfl, n, mem_of_head? hh, rfl⟩

theorem selok_cloneModule (i : Nat) (s : Store) (h : SelOk s.st) :
    SelOk (cloneModule i s).st := by
  cases hf : s.st.modules.find? (fun m => m.id == i) with
  | none =>
    have he : cloneModule i s = s := by unfold cloneModule; rw [hf]
    rw [he]
    exact h
  | some ex =>
    rw [cloneModule_some i s ex hf]
    unfold SelOk
    cases hh : (cloneModuleFn ex s.gen).1.nodes.head? with
    | none => simp [hh]
    | some n =>
      simp only [hh, Option.map_some']
      exact ⟨(cloneModuleFn ex s.gen).1,
        List.mem_append_right _ (List.mem_singleton_self _), rfl, n, mem_of_head? hh, rfl⟩

theorem selok_updateModule (i : Nat) (p : ModulePatch) (h1 : p.id = none)
    (h2 : p.nodes = none) (s : Store) (h : SelOk s.st) : SelOk (updateModule i p s).st := by
  refine selok_map s.st _ ?_ ?_ h
  · intro m _
    by_cases hc : (m.id == i) = true
    · rw [if_pos hc]
      simp [applyModulePatch, h1]
    · rw [if_neg hc]
  · intro m _ nid hex
    by_cases hc : (m.id == i) = true
    · rw [if_pos hc]
      have : (applyModulePatch p m).nodes = m.nodes := by simp [applyModulePatch, h2]
      rw [this]
      exact hex
    · rw [if_neg hc]
      exact hex

theorem selok_removeModule (i : Nat) (s : Store) : SelOk (removeModule i s).st := by
  simp only [removeModule, SelOk]
  cases hl : ((s.st.modules.filter (fun m => m.id != i)).getLast?).map (fun m => m.id) with
  | none => simp [hl]
  | some lastid =>
    simp only [hl]
    cases hf : (s.st.modules.filter (fun m => m.id != i)).find? (fun m => m.id == lastid) with
    | none => simp [hf]
    | some m =>
      cases hh : m.nodes.head? with
      | none => simp [hf, hh]
      | some n =>
        simp only [hf, hh, Option.some_bind', Option.map_some']
        refine ⟨m, List.mem_of_find?_eq_some hf, ?_, n, mem_of_head? hh, rfl⟩
        have hp := List.find?_some hf
        simp only [beq_iff_eq] at hp
        rw [hp]

theorem selok_addNode (i : Nat) (s : Store)
    (hg : ∃ m ∈ s.st.modules, m.id = i) : SelOk (addNode i s).st := by
  rw [addNode_eq]
  unfold SelOk
  obtain ⟨m, hm, hid⟩ := hg
  have hc : (m.id == i) = true := by simp [hid]
  have hFm : (fun m => if m.id == i then
      { m with nodes := m.nodes ++ [(createNode s.gen).1] } else m) m =
      { m with nodes := m.nodes ++ [(createNode s.gen).1] } := by
    simp only [hc, if_true]
  refine ⟨{ m with nodes := m.nodes ++ [(createNode s.gen).1] },
    hFm ▸ List.mem_map_of_mem _ hm, ?_, (createNode s.gen).1,
    List.mem_append_right _ (List.mem_singleton_self _), rfl⟩
  simp [hid]

theorem removeNode_eq (mi ni : Nat) (s : Store) :
    removeNode mi ni s =
      { s with st := { s.st with
          modules := s.st.modules.map (fun m =>
            if m.id == mi then { m with nodes := m.nodes.filter (fun n => n.id != ni) }
            else m)
        , selectedModuleId := some mi
        , selectedNodeId :=
            (((s.st.modules.map (fun m =>
                if m.id == mi then { m with nodes := m.nodes.filter (fun n => n.id != ni) }
                else m)).find? (fun m => m.id == mi)).bind (fun m => m.nodes.head?)).map
              (fun n => n.id) } } := rfl

theorem selok_removeNode (mi ni : Nat) (s : Store) : SelOk (removeNode mi ni s).st := by
  rw [removeNode_eq]
  unfold SelOk
  cases hf : (s.st.modules.map (fun m =>
      if m.id == mi then { m with nodes := m.nodes.filter (fun n => n.id != ni) }
      else m)).find? (fun m => m.id == mi) with
  | none => simp [hf]
  | some m =>
    cases hh : m.nodes.head? with
    | none => simp [hf, hh]
    | some n =>
      simp only [hf, hh, Option.some_bind', Option.map_some']
      refine ⟨m, List.mem_of_find?_eq_some hf, ?_, n, mem_of_head? hh, rfl⟩
      have hp := List.find?_some hf
      simp only [beq_iff_eq] at hp
      rw [hp]

theorem selok_updateNode (mi ni : Nat) (p : NodePatch) (h1 : p.id = none) (s : Store)
    (h : SelOk s.st) : SelOk (updateNode mi ni p s).st := by
  refine selok_map s.st _ ?_ ?_ h
  · intro m _
    by_cases hc : (m.id == mi) = true
    · rw [if_pos hc]
    · rw [if_neg hc]
  · intro m _ nid ⟨n, hn, hnid⟩
    by_cases hc : (m.id == mi) = true
    · rw [if_pos hc]
      refine ⟨if n.id == ni then applyNodePatch p n else n, List.mem_map_of_mem _ hn, ?_⟩
      by_cases hc2 : (n.id == ni) = true
      · rw [if_pos hc2]
        rw [← hnid]
        simp [applyNodePatch, h1]
      · rw [if_neg hc2]
        exact hnid
    · rw [if_neg hc]
      exact ⟨n, hn, hnid⟩

theorem selok_addParameter (mi ni : Nat) (pl : Placement) (s : Store) (h : SelOk s.st) :
    SelOk (addParameter mi ni pl s).st := by
  refine selok_mapGen s.st _ s.gen (addParamToModule_id pl mi ni) ?_ h
  intro m g nid ⟨n, hn, hnid⟩
  by_cases hc : (m.id == mi) = true
  · rw [addParamToModule_pos pl mi ni m g hc]
    obtain ⟨g', hg'⟩ := mapGen_mem_of_mem (addParamToNode pl ni) m.nodes n hn g
    exact ⟨(addParamToNode pl ni n g').1, hg', by rw [addParamToNode_id]; exact hnid⟩
  · rw [addParamToModule_neg pl mi ni m g hc]
    exact ⟨n, hn, hnid⟩

theorem selok_updateParameter (mi ni : Nat) (pl : Placement) (pid : Nat) (pp : ParamPatch)
    (s : Store) (h : SelOk s.st) : SelOk (updateParameter mi ni pl pid pp s).st := by
  refine selok_map s.st _ ?_ ?_ h
  · intro m _
    by_cases hc : (m.id == mi) = true
    · rw [if_pos hc]
    · rw [if_neg hc]
  · intro m _ nid ⟨n, hn, hnid⟩
    by_cases hc : (m.id == mi) = true
    · rw [if_pos hc]
      refine ⟨_, List.mem_map_of_mem _ hn, ?_⟩
      by_cases hc2 : (n.id == ni) = true
      · rw [if_pos hc2]
        rw [← hnid]
        cases pl <;> rfl
      · rw [if_neg hc2]
        exact hnid
    · rw [if_neg hc]
      exact ⟨n, hn, hnid⟩

theorem selok_removeParameter (mi ni : Nat) (pl : Placement) (pid : Nat) (s : Store)
    (h : SelOk s.st) : SelOk (removeParameter mi ni pl pid s).st := by
  refine selok_map s.st _ ?_ ?_ h
  · intro m _
    by_cases hc : (m.id == mi) = true
    · rw [if_pos hc]
    · rw [if_neg hc]
  · intro m _ nid ⟨n, hn, hnid⟩
    by_cases hc : (m.id == mi) = true
    · rw [if_pos hc]
      refine ⟨_, List.mem_map_of_mem _ hn, ?_⟩
      by_cases hc2 : (n.id == ni) = true
      · rw [if_pos hc2]
        rw [← hnid]
        cases pl <;> rfl
      · rw [if_neg hc2]
        exact hnid
    · rw [if_neg hc]
      exact ⟨n, hn, hnid⟩

theorem selok_addCommand (mi : Nat) (s : Store) (h : SelOk s.st) :
    SelOk (addCommand mi s).st := by
  refine selok_mapGen s.st _ s.gen (addCommandToModule_id mi) ?_ h
  intro m g nid hex
  unfold addCommandToModule
  by_cases hc : (m.id == mi) = true
  · rw [if_pos hc]
    exact hex
  · rw [if_neg hc]
    exact hex

theorem selok_updateCommand (mi ci : Nat) (p : CommandPatch) (s : Store) (h : SelOk s.st) :
    SelOk (updateCommand mi ci p s).st := by
  refine selok_map s.st _ ?_ ?_ h <;> intro m _
  · by_cases hc : (m.id == mi) = true
    · rw [if_pos hc]
    · rw [if_neg hc]
  · intro nid hex
    by_cases hc : (m.id == mi) = true
    · rw [if_pos hc]
      exact hex
    · rw [if_neg hc]
      exact hex

theorem selok_removeCommand (mi ci : Nat) (s : Store) (h : SelOk s.st) :
    SelOk (removeCommand mi ci s).st := by
  refine selok_map s.st _ ?_ ?_ h <;> intro m _
  · by_cases hc : (m.id == mi) = true
    · rw [if_pos hc]
    · rw [if_neg hc]
  · intro nid hex
    by_cases hc : (m.id == mi) = true
    · rw [if_pos hc]
      exact hex
    · rw [if_neg hc]
      exact hex

theorem selok_reset (s : Store) : SelOk (reset s).st := by
  unfold reset SelOk
  exact trivial

theorem selok_applyOp (s : Store) (op : Op) (hop : op.SelSafe s) (h : SelOk s.st) :
    SelOk (applyOp op s).st := by
  cases op with
  | updateMeta p => exact selok_updateMeta p s h
  | selectModule i => exact selok_selectModule i s
  | selectNode i =>
    cases i with
    | none => exact selok_selectNode_none s
    | some nid => exact selok_selectNode_some s nid hop
  | addModule => exact selok_addModule s
  | cloneModule i => exact selok_cloneModule i s h
  | updateModule i p => exact selok_updateModule i p hop.1 hop.2 s h
  | removeModule i => exact selok_removeModule i s
  | addNode i => exact selok_addNode i s hop
  | updateNode mi ni p => exact selok_updateNode mi ni p hop s h
  | removeNode mi ni => exact selok_removeNode mi ni s
  | addParameter mi ni pl => exact selok_addParameter mi ni pl s h
  | updateParameter mi ni pl pid pp => exact selok_updateParameter mi ni pl pid pp s h
  | removeParameter mi ni pl pid => exact selok_removeParameter mi ni pl pid s h
  | addCommand mi => exact selok_addCommand mi s h
  | updateCommand mi ci p => exact selok_updateCommand mi ci p s h
  | removeCommand mi ci => exact selok_removeCommand mi ci s h
  | reset => exact selok_reset s

/-- C2 amended: in every model reachable from the default model by operations
respecting the selection discipline — `selectNode` called only with null or
with the id of a node of the currently selected module, `addNode` only with an
existing module id, and update patches not setting a module's `id`/`nodes` or
a node's `id` — `selectedNodeId` is null or the id of a node contained in the
module whose id equals `selectedModuleId`. -/
theorem reachable_selection_invariant (s : Store) (h : ReachSelSafe s) : SelOk s.st := by
  induction h with
  | init => decide
  | step s op _ hop ih => exact selok_applyOp s op hop ih

/-- Witness for the amended C2 at the initial store. -/
theorem reachable_selection_invariant_witness : SelOk defaultStore.st :=
  reachable_selection_invariant defaultStore ReachSelSafe.init

end AddonArchitect
